import Mathlib

/-!
Verification development for the `api-catalog` static-page generator.

The Python scripts `scripts/generate_api_pages.py` and `scripts/add_nav_cta_og.py`
are shallowly embedded below.  Python strings are modelled as `List Char`
(named `Str`), decoded JSON values and general Python objects as the inductive
type `PyVal`, Python dictionaries as association lists in insertion order, and
Python functions that can raise an exception as functions into
`Except PyErr _`.  Regular-expression searches from the source are modelled by
hand-rolled scanners that follow Python's leftmost-match / lazy-quantifier
semantics for the concrete patterns appearing in the source.
-/

/-- Python strings are modelled as lists of characters. -/
abbrev Str := List Char

/-- Exceptions are modelled by the name of the raised exception class. -/
abbrev PyErr := String

/-- Regex `\s` and Python `str.strip()` whitespace (ASCII subset). -/
def isWS (c : Char) : Bool :=
  c = ' ' || c = '\t' || c = '\n' || c = '\r' || c = '\x0b' || c = '\x0c'

/-- `str.strip()`: remove leading and trailing whitespace. -/
def pyStrip (s : Str) : Str :=
  ((s.dropWhile isWS).reverse.dropWhile isWS).reverse

/-- `str.strip(chars)`: remove leading and trailing characters from `cs`. -/
def pyStripChars (cs : List Char) (s : Str) : Str :=
  ((s.dropWhile (cs.contains ·)).reverse.dropWhile (cs.contains ·)).reverse

/-- `str.lower()` (ASCII). -/
def lowerStr (s : Str) : Str := s.map Char.toLower

/-- `str.upper()` (ASCII). -/
def upperStr (s : Str) : Str := s.map Char.toUpper

/-- Case-sensitive or case-insensitive character comparison. -/
def chEq (ci : Bool) (a b : Char) : Bool :=
  if ci then a.toLower = b.toLower else a = b

/-- Does `pat` occur at the very start of `s` (optionally case-insensitive)? -/
def prefixMatch (ci : Bool) : Str → Str → Bool
  | [], _ => true
  | _ :: _, [] => false
  | p :: ps, c :: cs => chEq ci p c && prefixMatch ci ps cs

/-- Python `needle in hay` (case-sensitive substring test). -/
def containsSub (hay needle : Str) : Bool :=
  match hay with
  | [] => needle.isEmpty
  | _ :: rest => prefixMatch false needle hay || containsSub rest needle

/-- Python `hay.find(needle)`: index of first occurrence, or `-1`. -/
def pyFindAux (needle : Str) : Str → Option Nat
  | [] => if needle.isEmpty then some 0 else none
  | c :: rest =>
      if prefixMatch false needle (c :: rest) then some 0
      else (pyFindAux needle rest).map (· + 1)

/-- Python `hay.find(needle)` returning `-1` for "not found". -/
def pyFind (hay needle : Str) : Int :=
  match pyFindAux needle hay with
  | some n => (n : Int)
  | none => -1

/-- Python `s[:i]` (slice with possibly negative bound). -/
def pySliceTo (s : Str) (i : Int) : Str :=
  if 0 ≤ i then s.take i.toNat
  else s.take (s.length - (-i).toNat)

/-- Python `s.split(sep)` for a single-character separator (no collapsing). -/
def pySplitChar (sep : Char) : Str → List Str
  | [] => [[]]
  | c :: rest =>
      let r := pySplitChar sep rest
      if c = sep then [] :: r
      else
        match r with
        | [] => [[c]]
        | h :: t => (c :: h) :: t

/-- `"x".join(parts)` for a one-character joiner. -/
def joinWith (sep : Str) : List Str → Str
  | [] => []
  | [x] => x
  | x :: xs => x ++ sep ++ joinWith sep xs

/-- Python `str.replace(old, new)` (all occurrences, left to right).
For an empty `old`, Python inserts `new` around every character. -/
def pyReplaceAllAux (t r : Str) (ht : t ≠ []) : Str → Str
  | [] => []
  | c :: rest =>
      if t.isPrefixOf (c :: rest) then
        r ++ pyReplaceAllAux t r ht ((c :: rest).drop t.length)
      else
        c :: pyReplaceAllAux t r ht rest
termination_by s => s.length
decreasing_by
  · simp only [List.length_drop, List.length_cons]
    have : 1 ≤ t.length := by
      cases t with
      | nil => exact absurd rfl ht
      | cons a as => simp
    omega
  · simp

/-- Python `str.replace(old, new)`. -/
def pyReplaceAll (s t r : Str) : Str :=
  if h : t = [] then r ++ s.flatMap (fun c => [c] ++ r)
  else pyReplaceAllAux t r h s

/-- Python `str.replace(old, new, 1)`: replace only the first occurrence. -/
def pyReplaceFirst (s t r : Str) : Str :=
  match s with
  | [] => []
  | c :: rest =>
      if t ≠ [] && t.isPrefixOf (c :: rest) then
        r ++ (c :: rest).drop t.length
      else
        c :: pyReplaceFirst rest t r

/-- Decoded JSON values and, more generally, Python objects as far as the
embedded code inspects them.  `pyfloat` keeps the source literal of the float
abstractly: the embedded code never computes with float values.  `pyother`
stands for any Python object that is none of the JSON-like types. -/
inductive PyVal where
  | pynone : PyVal
  | pybool : Bool → PyVal
  | pyint : Int → PyVal
  | pyfloat : Str → PyVal
  | pystr : Str → PyVal
  | pylist : List PyVal → PyVal
  | pydict : List (Str × PyVal) → PyVal
  | pyother : PyVal

open PyVal

/-- Does the float literal denote `0.0`?  (All digits before any exponent are
zero.)  Used only for Python truthiness of floats. -/
def floatLitZero (lit : Str) : Bool :=
  ((lit.dropWhile (fun c => c = '-' || c = '+')).takeWhile
      (fun c => c ≠ 'e' && c ≠ 'E')).all (fun c => c = '0' || c = '.')

/-- Python truthiness. -/
def pyTruthy : PyVal → Bool
  | pynone => false
  | pybool b => b
  | pyint n => n ≠ 0
  | pyfloat lit => ¬ floatLitZero lit
  | pystr s => ¬ s.isEmpty
  | pylist xs => ¬ xs.isEmpty
  | pydict kvs => ¬ kvs.isEmpty
  | pyother => true

/-- `isinstance(v, dict)`. -/
def isDict : PyVal → Bool
  | pydict _ => true
  | _ => false

/-- `isinstance(v, str)`. -/
def isStr : PyVal → Bool
  | pystr _ => true
  | _ => false

/-- `isinstance(v, list)`. -/
def isList : PyVal → Bool
  | pylist _ => true
  | _ => false

/-- The entry list of a dict (empty for non-dicts; callers guard with
`isDict` exactly where the Python source does). -/
def dictItems : PyVal → List (Str × PyVal)
  | pydict kvs => kvs
  | _ => []

/-- `d.get(k)` (returning `None` when absent). -/
def dictGet (v : PyVal) (k : Str) : PyVal :=
  match (dictItems v).find? (fun p => p.1 = k) with
  | some p => p.2
  | none => pynone

/-- `d.get(k, dflt)`. -/
def dictGetD (v : PyVal) (k : Str) (dflt : PyVal) : PyVal :=
  match (dictItems v).find? (fun p => p.1 = k) with
  | some p => p.2
  | none => dflt

/-- `k in d` (key membership). -/
def dictHasKey (v : PyVal) (k : Str) : Bool :=
  ((dictItems v).find? (fun p => p.1 = k)).isSome

/-- Python `a or b`. -/
def pyOr (a b : PyVal) : PyVal := if pyTruthy a then a else b

/-- `repr` of a Python string (quote selection and basic escaping; only
reachable from `str()` applied to lists/dicts in degenerate schemas). -/
def pyReprOfStr (s : Str) : Str :=
  let useDouble := s.contains '\'' && ¬ s.contains '"'
  let q : Char := if useDouble then '"' else '\''
  let body := s.flatMap (fun c =>
    if c = '\\' then ['\\', '\\']
    else if c = q then ['\\', q]
    else if c = '\n' then ['\\', 'n']
    else if c = '\r' then ['\\', 'r']
    else if c = '\t' then ['\\', 't']
    else [c])
  q :: body ++ [q]

mutual
/-- Python `repr` for the modelled values.  Float formatting is abstracted:
the stored literal is used verbatim (the embedded code never shows floats). -/
def pyRepr : PyVal → Str
  | pynone => "None".data
  | pybool b => if b then "True".data else "False".data
  | pyint n => (toString n).data
  | pyfloat lit => lit
  | pystr s => pyReprOfStr s
  | pylist xs => '[' :: joinWith (", ".data) (pyReprList xs) ++ [']']
  | pydict kvs => '\x7b' :: joinWith (", ".data) (pyReprDict kvs) ++ ['\x7d']
  | pyother => "<object>".data

/-- `repr` of the elements of a list. -/
def pyReprList : List PyVal → List Str
  | [] => []
  | x :: xs => pyRepr x :: pyReprList xs

/-- `repr` of the entries of a dict. -/
def pyReprDict : List (Str × PyVal) → List Str
  | [] => []
  | (k, v) :: kvs => (pyReprOfStr k ++ ": ".data ++ pyRepr v) :: pyReprDict kvs
end

/-- Python `str(v)`. -/
def pyStr : PyVal → Str
  | pystr s => s
  | v => pyRepr v

/-- The backtick character (written via its code point). -/
def btick : Char := Char.ofNat 96

/-- One row of a request/response schema table:
`{"field": ..., "type": ..., "description": ...}`. -/
structure Row where
  field : Str
  type : Str
  description : Str
deriving DecidableEq, Repr

/-- One error-code entry: `{"code": ..., "http_status": ..., "description": ...}`. -/
structure ErrEntry where
  code : Str
  http_status : Str
  description : Str
deriving DecidableEq, Repr

/-- `_infer_type_from_value`: infer a JSON-schema-like type label from a value.
The Python `isinstance` chain tests `bool` before `int`/`float`; on the
modelled value space each constructor hits exactly one branch. -/
def _infer_type_from_value : PyVal → Str
  | pynone => "null".data
  | pybool _ => "boolean".data
  | pyint _ => "integer".data
  | pyfloat _ => "number".data
  | pystr _ => "string".data
  | pylist _ => "array".data
  | pydict _ => "object".data
  | pyother => "any".data

/-- `REQUEST_PAYLOAD_DESCRIPTIONS`: canned descriptions for request fields that
accept user-defined payloads. -/
def REQUEST_PAYLOAD_DESCRIPTIONS : List (String × String) := [
  ("payload", "Your data to process (JSON object, array, or string). Structure is defined by you—e.g. object with keys to scan for PII, or raw event/job/shipment payload. Not stored or logged."),
  ("inputs", "Array of input buckets. Each item typically has a platform/source id (e.g. platform, calendarId, retailerId) and a payload or data array. Structure per item is defined by the endpoint; see example and docs."),
  ("data", "Raw payload array or object for this bucket (e.g. events, jobs, tracking data). Structure depends on the platform; you send what you have."),
  ("before", "The original (before) JSON payload to compare. Object or array; structure is defined by your API or data."),
  ("after", "The new (after) JSON payload to compare. Must match general structure of before for a meaningful diff.")]

/-- Lookup in `REQUEST_PAYLOAD_DESCRIPTIONS`. -/
def lookupPayloadDesc (name : Str) : Option Str :=
  (REQUEST_PAYLOAD_DESCRIPTIONS.find? (fun p => p.1.data == name)).map (fun p => p.2.data)

/-- `(defn.get("description") or "").strip()`: a truthy non-string description
raises `AttributeError` on `.strip()`. -/
def descOf (v : PyVal) : Except PyErr Str :=
  if pyTruthy v then
    match v with
    | pystr s => .ok (pyStrip s)
    | _ => .error "AttributeError"
  else .ok []

/-- `typ = defn.get("type"); if isinstance(typ, list): typ = "|".join(str(t)
for t in typ); typ = str(typ) if typ else "any"`. -/
def topTypeStr (v : PyVal) : Str :=
  match v with
  | pylist ts =>
      let j := joinWith ("|".data) (ts.map pyStr)
      if j.isEmpty then "any".data else j
  | v => if pyTruthy v then pyStr v else "any".data

/-- `subtyp = subdef.get("type", "any"); if isinstance(subtyp, list): subtyp =
"|".join(...)`; the row stores `str(subtyp)` unconditionally. -/
def subTypeStr (v : PyVal) : Str :=
  match v with
  | pylist ts => joinWith ("|".data) (ts.map pyStr)
  | v => pyStr v

/-- Sequential `flatMap` in `Except`, aborting at the first error (Python
exception propagation out of a `for` loop). -/
def exceptFlatMap (f : α → Except PyErr (List β)) : List α → Except PyErr (List β)
  | [] => .ok []
  | x :: xs => do
      let ys ← f x
      let rest ← exceptFlatMap f xs
      .ok (ys ++ rest)

/-- Sub-rows for `items.properties` of an `array` property
(`field[].subfield` rows). -/
def arrayItemRows (field_name : Str) : List (Str × PyVal) → Except PyErr (List Row)
  | [] => .ok []
  | (subname, subdef) :: rest => do
      let tail ← arrayItemRows field_name rest
      match subdef with
      | pydict sdd => do
          let subtyp := subTypeStr (dictGetD (pydict sdd) ("type".data) (pystr ("any".data)))
          let subdesc ← descOf (dictGet (pydict sdd) ("description".data))
          .ok (⟨field_name ++ "[].".data ++ subname, subtyp,
                if subdesc.isEmpty then "Per-item: ".data ++ subname else subdesc⟩ :: tail)
      | _ => .ok tail

/-- Sub-rows for nested `properties` of an `object` property
(`field.subfield` rows). -/
def objectSubRows (field_name : Str) : List (Str × PyVal) → Except PyErr (List Row)
  | [] => .ok []
  | (subname, subdef) :: rest => do
      let tail ← objectSubRows field_name rest
      match subdef with
      | pydict sdd => do
          let subtyp := subTypeStr (dictGetD (pydict sdd) ("type".data) (pystr ("any".data)))
          let subdesc ← descOf (dictGet (pydict sdd) ("description".data))
          .ok (⟨field_name ++ ".".data ++ subname, subtyp,
                if subdesc.isEmpty then subname else subdesc⟩ :: tail)
      | _ => .ok tail

/-- Loop body of `_expand_schema_properties` for one `(name, defn)` entry.
Truthy non-mapping `items.properties` / nested `properties` values raise
`AttributeError` on `.items()`, as in the source. -/
def expandOne (for_request : Bool) (pref : Str) (nd : Str × PyVal) :
    Except PyErr (List Row) :=
  match nd.2 with
  | pydict d => do
      let typ := topTypeStr (dictGet (pydict d) ("type".data))
      let desc0 ← descOf (dictGet (pydict d) ("description".data))
      let desc :=
        if for_request && desc0.isEmpty && (lookupPayloadDesc nd.1).isSome then
          (lookupPayloadDesc nd.1).getD []
        else desc0
      let field_name := if pref.isEmpty then nd.1 else pref ++ nd.1
      let items_def := dictGet (pydict d) ("items".data)
      if typ = "array".data && isDict items_def then
        let item_props := dictGet items_def ("properties".data)
        if pyTruthy item_props then
          match item_props with
          | pydict ips => arrayItemRows field_name ips
          | _ => .error "AttributeError"
        else
          .ok [⟨field_name, "array".data,
                if desc.isEmpty then "Array of objects; see response example for item shape.".data else desc⟩]
      else if typ = "object".data then
        let nested := dictGet (pydict d) ("properties".data)
        if pyTruthy nested then
          match nested with
          | pydict ns => objectSubRows field_name ns
          | _ => .error "AttributeError"
        else
          .ok [⟨field_name, "object".data,
                if desc.isEmpty then "Object; structure depends on context.".data else desc⟩]
      else
        .ok [⟨field_name, typ, desc⟩]
  | _ => .ok []

/-- `_expand_schema_properties`: expand a JSON-schema `properties` mapping into
rows, one level deep.  A falsy or non-dict mapping yields no rows. -/
def _expand_schema_properties (properties : PyVal) (for_request : Bool)
    (pref : Str) : Except PyErr (List Row) :=
  match properties with
  | pydict kvs => exceptFlatMap (expandOne for_request pref) kvs
  | _ => .ok []

/-- `_example_to_rows`: derive rows from a concrete example object
(one level of expansion; arrays of objects get `[].key` rows). -/
def _example_to_rows (obj : PyVal) (pref : Str) : List Row :=
  match obj with
  | pydict kvs =>
      kvs.flatMap (fun kv =>
        let field := if pref.isEmpty then kv.1 else pref ++ kv.1
        let typ := _infer_type_from_value kv.2
        if typ = "array".data then
          match kv.2 with
          | pylist (first :: _) =>
              match first with
              | pydict fkvs =>
                  fkvs.map (fun p =>
                    ⟨field ++ "[].".data ++ p.1, _infer_type_from_value p.2,
                     "Per-item: ".data ++ p.1⟩)
              | _ => [⟨field, typ, []⟩]
          | _ => [⟨field, typ, []⟩]
        else if typ = "object".data then
          match kv.2 with
          | pydict vkvs =>
              vkvs.map (fun p =>
                ⟨field ++ ".".data ++ p.1, _infer_type_from_value p.2, []⟩)
          | _ => [⟨field, typ, []⟩]
        else [⟨field, typ, []⟩])
  | _ => []

/-- `_json_schema_to_rows`: convert a JSON schema value to rows. -/
def _json_schema_to_rows (schema_json : PyVal) (for_request : Bool) :
    Except PyErr (List Row) :=
  if !pyTruthy schema_json || !isDict schema_json then .ok []
  else
    let props := dictGet schema_json ("properties".data)
    if !pyTruthy props then .ok []
    else _expand_schema_properties props for_request []

/-- Root segment of a field path: `field.split("[")[0].split(".")[0]`. -/
def rootSeg (f : Str) : Str := f.takeWhile (fun c => c ≠ '[' && c ≠ '.')

/-- The replacement condition of the merge: a row of type `array` whose field
path has no `[]` and whose description is empty or contains the placeholder
phrase `"see response example"` (case-insensitively). -/
def condReplace (r : Row) : Bool :=
  r.type = "array".data && !containsSub r.field ("[]".data) &&
    (r.description.isEmpty || containsSub (lowerStr r.description) ("see response example".data))

/-- `array_fields_without_items`: the field names collected into a Python
`set` during the first pass.  Python set iteration order is unspecified; we
iterate in insertion order.  The verified properties are order-independent. -/
def afwiOf (rows : List Row) : List Str :=
  rows.foldl (fun acc r =>
    if condReplace r && !acc.contains r.field then acc ++ [r.field] else acc) []

/-- One iteration of the replacement pass: if the example value under `key`
is a non-empty array of objects, drop the rows with exactly that field and
append per-item rows. -/
def replaceStep (ex : PyVal) (acc : List Row) (key : Str) : List Row :=
  match dictGet ex key with
  | pylist (first :: _) =>
      match first with
      | pydict fkvs =>
          (acc.filter (fun r => r.field ≠ key)) ++
            fkvs.map (fun p =>
              ⟨key ++ "[].".data ++ p.1, _infer_type_from_value p.2,
               "Per-item: ".data ++ p.1⟩)
      | _ => acc
  | _ => acc

/-- The replacement pass of the merge over all collected array fields. -/
def replaceArrays (ex : PyVal) (rows : List Row) : List Row :=
  (afwiOf rows).foldl (replaceStep ex) rows

/-- The example-derived rows appended for one example entry not yet covered
by `seen`. -/
def appendRowsFor (seen : List Str) (kv : Str × PyVal) : List Row :=
  if seen.contains kv.1 then []
  else
    if _infer_type_from_value kv.2 = "array".data then
      match kv.2 with
      | pylist (first :: _) =>
          match first with
          | pydict fkvs =>
              fkvs.map (fun p =>
                ⟨kv.1 ++ "[].".data ++ p.1, _infer_type_from_value p.2,
                 "Per-item: ".data ++ p.1⟩)
          | _ => [⟨kv.1, _infer_type_from_value kv.2, []⟩]
      | _ => [⟨kv.1, _infer_type_from_value kv.2, []⟩]
    else if _infer_type_from_value kv.2 = "object".data then
      match kv.2 with
      | pydict vkvs =>
          vkvs.map (fun p => ⟨kv.1 ++ ".".data ++ p.1, _infer_type_from_value p.2, []⟩)
      | _ => [⟨kv.1, _infer_type_from_value kv.2, []⟩]
    else [⟨kv.1, _infer_type_from_value kv.2, []⟩]

/-- The append pass of the merge: any top-level example key whose root segment
is not yet represented gets example-derived rows (the `seen` set is computed
once, before any appends). -/
def appendMissing (ex : PyVal) (rows : List Row) : List Row :=
  rows ++ (dictItems ex).flatMap (appendRowsFor (rows.map (fun r => rootSeg r.field)))

/-- The `elif example_json and isinstance(example_json, dict)` merge branch of
`_response_schema_from_schema_and_example`. -/
def mergeRowsWithExample (rows : List Row) (ex : PyVal) : List Row :=
  appendMissing ex (replaceArrays ex rows)

/-- `_response_schema_from_schema_and_example`: expand the schema; when the
schema is absent use the example alone; when both are present merge. -/
def _response_schema_from_schema_and_example (schema_json example_json : PyVal) :
    Except PyErr (List Row) := do
  let rows ←
    if pyTruthy schema_json && isDict schema_json &&
        pyTruthy (dictGet schema_json ("properties".data)) then
      _expand_schema_properties (dictGet schema_json ("properties".data)) false []
    else .ok []
  if rows.isEmpty && pyTruthy example_json && isDict example_json then
    .ok (_example_to_rows example_json [])
  else if pyTruthy example_json && isDict example_json then
    .ok (mergeRowsWithExample rows example_json)
  else .ok rows

/-- `ERROR_CODE_DESCRIPTIONS`: well-known error/warning codes with canned
descriptions. -/
def ERROR_CODE_DESCRIPTIONS : List (String × String) := [
  ("MISSING_PAYLOAD", "Request body is missing the required payload or inputs. Send a JSON object with either payload or inputs array."),
  ("INVALID_REQUEST", "Request is malformed or missing required fields (e.g. payload/inputs). Check the request body and try again."),
  ("INVALID_JSON", "Request body is not valid JSON. Ensure Content-Type is application/json and the body parses correctly."),
  ("INVALID_MODE", "The mode parameter is not one of the allowed values. Check the endpoint docs for valid modes."),
  ("INVALID_REDACTION_STRATEGY", "One or more redaction strategy values are not supported. Use mask, replace, hash, or remove."),
  ("CONFIG_ERROR", "Configuration for the request is invalid (e.g. types, coverageLevel, or redaction options)."),
  ("UNSUPPORTED_INPUT", "The input format or structure is not supported by this endpoint."),
  ("MAX_DEPTH_EXCEEDED", "JSON nesting depth exceeds the allowed limit. Flatten or reduce nesting."),
  ("UNSUPPORTED_MEDIA_TYPE", "Content-Type is not supported. Use application/json or the documented type."),
  ("PAYLOAD_TOO_LARGE", "Request body exceeds the maximum allowed size (e.g. 25MB). Send a smaller payload or split the request."),
  ("INTERNAL_ERROR", "An unexpected server error occurred. Retry later; if it persists, check status or contact support."),
  ("MISSING_HTML", "Request must include an html field (string) in the body."),
  ("INVALID_HTML", "The html field must be a non-empty string."),
  ("URL_FETCH_NOT_SUPPORTED", "URL fetching is not supported; send HTML in the body instead."),
  ("AMBIGUOUS_INPUT", "Cannot provide both html and url; use one."),
  ("FIELD_REMOVED", "A field was removed between before and after (breaking change)."),
  ("TYPE_CHANGED", "A field's type changed (e.g. number to string) (breaking change)."),
  ("FIELD_ADDED", "A new field was added (non-breaking)."),
  ("NULLABILITY_CHANGED", "Nullability of a field changed (breaking or non-breaking depending on direction)."),
  ("AUTH_INVALID", "Authentication failed or credentials are invalid."),
  ("RATE_LIMIT_EXCEEDED", "Rate limit exceeded. Retry after the suggested Retry-After period."),
  ("INVALID_TRACKING_NUMBER", "Empty or missing trackingNumber for one or more inputs."),
  ("INVALID_PAYLOAD", "Payload is not an object (e.g. number or array where object expected)."),
  ("NO_TRACKING_DATA", "Payload could not be normalized to any events or status."),
  ("PARSE_ERROR", "Unhandled parse failure for one item.")]

/-- `ERROR_CODE_DESCRIPTIONS.get(code)`. -/
def lookupCodeDesc (code : Str) : Option Str :=
  (ERROR_CODE_DESCRIPTIONS.find? (fun p => p.1.data == code)).map (fun p => p.2.data)

/-- `ERROR_CODE_DESCRIPTIONS.get(code, "See RapidAPI docs for details.")`. -/
def lookupDesc (code : Str) : Str :=
  (lookupCodeDesc code).getD ("See RapidAPI docs for details.".data)

/-- `[c.strip() for c in line.split("|")[1:-1]]`. -/
def cellsOf (line : Str) : List Str :=
  (((pySplitChar '|' line).drop 1).dropLast).map pyStrip

/-- `.strip().strip("*").strip(backtick)` applied to a table cell. -/
def cleanCell (c : Str) : Str :=
  pyStripChars [btick] (pyStripChars ['*'] (pyStrip c))

/-- Does a line start (after stripping) with `|` and have a first cell equal,
after upper-casing and removing `*`, to `CODE`? -/
def isHeaderLine (line : Str) : Bool :=
  ("|".data).isPrefixOf (pyStrip line) &&
    match cellsOf line with
    | [] => false
    | c0 :: _ => (upperStr c0).filter (fun c => c ≠ '*') == "CODE".data

/-- Find the header row; return it together with the lines after the (skipped)
separator row (`range(header_idx + 2, len(lines))`). -/
def findHeader : List Str → Option (Str × List Str)
  | [] => none
  | l :: ls => if isHeaderLine l then some (l, ls.drop 1) else findHeader ls

/-- Loop body of `_parse_readme_error_table` for a single data row:
`code_col` is `0`; a row with too few cells, an empty code, or a code starting
with `-` is skipped.  The static lookup table supplies the description exactly
when the description cell is absent (`desc_col >= len(cells)`). -/
def rowEntryOf (desc_col : Nat) (http_col : Int) (line : Str) : Option ErrEntry :=
  let cells := cellsOf line
  if cells.length ≤ 0 then none
  else
    let code := cleanCell (cells.getD 0 [])
    if code.isEmpty || ("-".data).isPrefixOf code then none
    else
      let http0 :=
        if 0 ≤ http_col && http_col < (cells.length : Int) then
          pyStrip (cells.getD http_col.toNat [])
        else "—".data
      let http := if http0.isEmpty then "—".data else http0
      let desc :=
        if desc_col < cells.length then cleanCell (cells.getD desc_col [])
        else lookupDesc code
      some ⟨code, http, desc⟩

/-- Data rows: subsequent `|`-prefixed lines, each parsed by `rowEntryOf`. -/
def tableRows (desc_col : Nat) (http_col : Int) (rest : List Str) : List ErrEntry :=
  (rest.takeWhile (fun l => ("|".data).isPrefixOf (pyStrip l))).filterMap
    (rowEntryOf desc_col http_col)

/-- `_parse_readme_error_table`: parse the markdown error-code table of a
README.  Header width decides the column mapping; fewer than two columns
rejects the table. -/
def _parse_readme_error_table (content : Str) : List ErrEntry :=
  match findHeader (pySplitChar '\n' content) with
  | none => []
  | some (hl, rest) =>
      let header := cellsOf hl
      if header.length ≥ 3 then tableRows 1 2 rest
      else if header.length = 2 then tableRows 1 (-1) rest
      else []

/-- A fenced-code-block pattern: the literal tag after the three backticks and
an optional negative lookahead (for ``` ``(?!markdown)`` ``` ). -/
structure FenceSpec where
  tag : Str
  notTag : Option Str

/-- The part of a whitespace run after its last newline, or `none` when the
run has no newline.  Models the backtracking of `\s*\n`: the greedy `\s*`
settles on the last newline of the run, and earlier newlines can never turn a
failing closing-fence search into a succeeding one. -/
def afterLastNl (run : Str) : Option Str :=
  if run.contains '\n' then
    some ((run.reverse.takeWhile (fun c => c ≠ '\n')).reverse)
  else none

/-- Match ``` ```tag\s*\n(.*?)``` ``` exactly at the start of `s`, returning
the lazy capture (text up to the first closing fence). -/
def blockAt (ci : Bool) (fs : FenceSpec) (s : Str) : Option Str :=
  let fence := btick :: btick :: btick :: fs.tag
  if prefixMatch ci fence s then
    let rem := s.drop fence.length
    let lookOk :=
      match fs.notTag with
      | some nt => !prefixMatch ci nt rem
      | none => true
    if lookOk then
      let run := rem.takeWhile isWS
      let rem2 := rem.drop run.length
      match afterLastNl run with
      | none => none
      | some tail =>
          match pyFindAux [btick, btick, btick] rem2 with
          | none => none
          | some j => some (tail ++ rem2.take j)
    else none
  else none

/-- First position at which `blockAt` succeeds (the lazy gap `[\s\S]*?`
followed by the fence). -/
def findBlock (ci : Bool) (fs : FenceSpec) : Str → Option Str
  | [] => none
  | c :: rest =>
      match blockAt ci fs (c :: rest) with
      | some cap => some cap
      | none => findBlock ci fs rest

/-- One alternative of a heading alternation; `optParen` adds the greedy
optional suffix `(?:\s*\([^)]*\))?`. -/
structure AltSpec where
  lit : Str
  optParen : Bool

/-- The remainders of `s` after matching alternative `a` at its start, in
backtracking preference order (with the optional parenthesized suffix first). -/
def altRems (ci : Bool) (a : AltSpec) (s : Str) : List Str :=
  if prefixMatch ci a.lit s then
    let rem := s.drop a.lit.length
    if a.optParen then
      let run := rem.takeWhile isWS
      let rem2 := rem.drop run.length
      match rem2 with
      | '(' :: rest =>
          let inside := rest.takeWhile (fun c => c ≠ ')')
          match rest.drop inside.length with
          | ')' :: tail => [tail, rem]
          | _ => [rem]
      | _ => [rem]
    else [rem]
  else []

/-- Leftmost match of `ALT [\s\S]*? FENCE \s*\n (.*?) FENCE-CLOSE`: scan start
positions left to right; at each, try alternatives (and their backtracking
variants) in order and take the first that is followed by a valid block. -/
def searchHeadingBlock (ci : Bool) (alts : List AltSpec) (fs : FenceSpec) :
    Str → Option Str
  | [] => none
  | c :: rest =>
      match (alts.flatMap (fun a => altRems ci a (c :: rest))).filterMap
          (findBlock ci fs) with
      | cap :: _ => some cap
      | [] => searchHeadingBlock ci alts fs rest

/-- `[a-zA-Z0-9_-]`. -/
def isPathChar (c : Char) : Bool :=
  ('a' ≤ c && c ≤ 'z') || ('A' ≤ c && c ≤ 'Z') || ('0' ≤ c && c ≤ '9') ||
    c = '_' || c = '-'

/-- Core of the path pattern after the optional leading `**`:
`Path(?:\*\*)?\s*:\s*` then an optional backtick and the capture
`(/[a-zA-Z0-9_-]+)`.  The capture itself requires the leading slash. -/
def pathCore (s : Str) : Option Str :=
  if ("Path".data).isPrefixOf s then
    let r1 := s.drop 4
    -- greedy optional `**`; if it is present the backtracked branch would
    -- have to read `\s*:` starting at `*`, which cannot succeed
    let r2 := if ("**".data).isPrefixOf r1 then r1.drop 2 else r1
    let r3 := r2.dropWhile isWS
    match r3 with
    | ':' :: r4 =>
        let r5 := r4.dropWhile isWS
        -- greedy optional backtick; the backtracked branch would need `/`
        -- at the backtick itself, which cannot succeed
        let r6 := if r5.headD ' ' = btick then r5.drop 1 else r5
        match r6 with
        | '/' :: r7 =>
            let run := r7.takeWhile isPathChar
            if run.isEmpty then none else some ('/' :: run)
        | _ => none
    | _ => none
  else none

/-- The path pattern at one position, with the optional leading `**`. -/
def pathAt (s : Str) : Option Str :=
  if ("**".data).isPrefixOf s then
    match pathCore (s.drop 2) with
    | some p => some p
    | none => pathCore s
  else pathCore s

/-- `re.search` for the path pattern (case-sensitive): leftmost position. -/
def extractPath : Str → Option Str
  | [] => none
  | c :: rest =>
      match pathAt (c :: rest) with
      | some p => some p
      | none => extractPath rest

/-- Line 234 of the source: prepend a slash when the captured token lacks one
(dead in practice: the capture group itself demands the slash). -/
def pathNormalize (p : Str) : Str :=
  if ("/".data).isPrefixOf p then p else '/' :: p

/-- Core of the error-codes-line pattern after the optional leading `**`:
`Error codes(?:\*\*)?\s*:\s*([^\n]+)` (case-insensitive).  When only
whitespace remains, Python can still match a whitespace-only capture by
backtracking `\s*`, but such a capture contains no backtick codes, so it is
folded into `none` here. -/
def errLineCore (s : Str) : Option Str :=
  if prefixMatch true ("Error codes".data) s then
    let r1 := s.drop 11
    let r2 := if ("**".data).isPrefixOf r1 then r1.drop 2 else r1
    let r3 := r2.dropWhile isWS
    match r3 with
    | ':' :: r4 =>
        let r5 := r4.dropWhile isWS
        if r5.isEmpty then none
        else some (r5.takeWhile (fun c => c ≠ '\n'))
    | _ => none
  else none

/-- The error-codes-line pattern at one position. -/
def errLineAt (s : Str) : Option Str :=
  if ("**".data).isPrefixOf s then
    match errLineCore (s.drop 2) with
    | some p => some p
    | none => errLineCore s
  else errLineCore s

/-- `re.search` for the error-codes line: leftmost position. -/
def extractErrLine : Str → Option Str
  | [] => none
  | c :: rest =>
      match errLineAt (c :: rest) with
      | some p => some p
      | none => extractErrLine rest

/-- `[A-Z]`. -/
def isUpperAZ (c : Char) : Bool := 'A' ≤ c && c ≤ 'Z'

/-- `[A-Z0-9_]`. -/
def isCodeChar (c : Char) : Bool :=
  isUpperAZ c || ('0' ≤ c && c ≤ '9') || c = '_'

/-- After an opening backtick, match `([A-Z][A-Z0-9_]+)` followed by a closing
backtick; return the code and the number of characters consumed. -/
def codeAt (s : Str) : Option (Str × Nat) :=
  match s with
  | [] => none
  | c :: rest =>
      if isUpperAZ c then
        let run := rest.takeWhile isCodeChar
        if run.isEmpty then none
        else
          match rest.drop run.length with
          | c2 :: _ => if c2 = btick then some (c :: run, run.length + 2) else none
          | [] => none
      else none

/-- `re.finditer` over the captured line for backtick-quoted codes
(non-overlapping, left to right, continuing after each match end).  Fuel is
structural so that concrete runs reduce in the kernel; `scanCodes` supplies
enough fuel for the whole line. -/
def scanCodesAux (fuel : Nat) (s : Str) : List Str :=
  match fuel, s with
  | 0, _ => []
  | _, [] => []
  | fuel + 1, c :: rest =>
      if c = btick then
        match codeAt rest with
        | some cn => cn.1 :: scanCodesAux fuel (rest.drop cn.2)
        | none => scanCodesAux fuel rest
      else scanCodesAux fuel rest

/-- `re.finditer` for backtick-quoted codes over a whole line. -/
def scanCodes (s : Str) : List Str := scanCodesAux s.length s

/-- JSON whitespace accepted by `json.loads` (stricter than regex `\s`). -/
def isJsonWS (c : Char) : Bool := c = ' ' || c = '\t' || c = '\n' || c = '\r'

/-- Skip JSON whitespace. -/
def jsonSkipWS (s : Str) : Str := s.dropWhile isJsonWS

/-- Hex digit value. -/
def hexVal (c : Char) : Option Nat :=
  if '0' ≤ c && c ≤ '9' then some (c.toNat - 48)
  else if 'a' ≤ c && c ≤ 'f' then some (c.toNat - 87)
  else if 'A' ≤ c && c ≤ 'F' then some (c.toNat - 55)
  else none

/-- Replace the value of an existing key in place, or append (Python dict
semantics for duplicate keys in a JSON object: last value, first position). -/
def updateAssoc (kvs : List (Str × PyVal)) (k : Str) (v : PyVal) :
    List (Str × PyVal) :=
  if kvs.any (fun p => p.1 == k) then
    kvs.map (fun p => if p.1 == k then (p.1, v) else p)
  else kvs ++ [(k, v)]

/-- Integer from decimal digits. -/
def intOfDigits (neg : Bool) (ds : Str) : Int :=
  let n : Nat := ds.foldl (fun a c => a * 10 + (c.toNat - 48)) 0
  if neg then -(n : Int) else (n : Int)

/-- Parse a JSON number following `json.loads`' number regex
`(-?(?:0|[1-9]\d*))(\.\d+)?([eE][-+]?\d+)?`: a failed fraction or exponent
group simply does not consume (any leftover text then fails the top-level
trailing-data check).  Ints yield `pyint`; the rest yield `pyfloat` carrying
the matched literal. -/
def parseJNumber (s : Str) : Option (PyVal × Str) :=
  let neg := s.headD ' ' = '-'
  let r1 := if neg then s.drop 1 else s
  let intRun := r1.takeWhile Char.isDigit
  if intRun.isEmpty then none
  else
    let ip := if intRun.headD 'x' = '0' then ['0'] else intRun
    let r2 := r1.drop ip.length
    let fracPair : Str × Str :=
      match r2 with
      | '.' :: rf =>
          let fr := rf.takeWhile Char.isDigit
          if fr.isEmpty then ([], r2) else ('.' :: fr, rf.drop fr.length)
      | _ => ([], r2)
    let r3 := fracPair.2
    let expPair : Str × Str :=
      match r3 with
      | c :: re =>
          if c = 'e' || c = 'E' then
            let sgPair : Str × Str :=
              match re with
              | k :: rr => if k = '+' || k = '-' then ([k], rr) else ([], re)
              | [] => ([], re)
            let ds := sgPair.2.takeWhile Char.isDigit
            if ds.isEmpty then ([], r3)
            else (c :: sgPair.1 ++ ds, sgPair.2.drop ds.length)
          else ([], r3)
      | [] => ([], r3)
    if fracPair.1.isEmpty && expPair.1.isEmpty then
      some (pyint (intOfDigits neg ip), r2)
    else
      some (pyfloat ((if neg then ['-'] else []) ++ ip ++ fracPair.1 ++ expPair.1),
            expPair.2)

/-- Parse the remainder of a JSON string after the opening quote.  Strict
mode: raw control characters are rejected; unknown escapes are rejected;
`\uXXXX` produces the code point directly (surrogate pairs are not combined —
irrelevant to everything verified here). -/
def parseJString (fuel : Nat) (s : Str) : Option (Str × Str) :=
  match fuel with
  | 0 => none
  | fuel + 1 =>
      match s with
      | [] => none
      | c :: rest =>
          if c = '"' then some ([], rest)
          else if c = '\\' then
            match rest with
            | [] => none
            | e :: r2 =>
                if e = 'u' then
                  match r2 with
                  | h1 :: h2 :: h3 :: h4 :: r3 =>
                      match hexVal h1, hexVal h2, hexVal h3, hexVal h4 with
                      | some a, some b, some cc, some d =>
                          let code := ((a * 16 + b) * 16 + cc) * 16 + d
                          (parseJString fuel r3).map
                            (fun p => (Char.ofNat code :: p.1, p.2))
                      | _, _, _, _ => none
                  | _ => none
                else
                  let ec : Option Char :=
                    if e = '"' then some '"'
                    else if e = '\\' then some '\\'
                    else if e = '/' then some '/'
                    else if e = 'b' then some '\x08'
                    else if e = 'f' then some '\x0c'
                    else if e = 'n' then some '\n'
                    else if e = 'r' then some '\r'
                    else if e = 't' then some '\t'
                    else none
                  match ec with
                  | some ch => (parseJString fuel r2).map (fun p => (ch :: p.1, p.2))
                  | none => none
          else if c.toNat < 32 then none
          else (parseJString fuel rest).map (fun p => (c :: p.1, p.2))

mutual
/-- Parse one JSON value (after skipping leading whitespace). -/
def parseJValue (fuel : Nat) (s : Str) : Option (PyVal × Str) :=
  match fuel with
  | 0 => none
  | fuel + 1 =>
      let s := jsonSkipWS s
      if ("true".data).isPrefixOf s then some (pybool true, s.drop 4)
      else if ("false".data).isPrefixOf s then some (pybool false, s.drop 5)
      else if ("null".data).isPrefixOf s then some (pynone, s.drop 4)
      else if ("NaN".data).isPrefixOf s then some (pyfloat ("NaN".data), s.drop 3)
      else if ("Infinity".data).isPrefixOf s then
        some (pyfloat ("Infinity".data), s.drop 8)
      else if ("-Infinity".data).isPrefixOf s then
        some (pyfloat ("-Infinity".data), s.drop 9)
      else
        match s with
        | '\x7b' :: rest =>
            let r := jsonSkipWS rest
            (match r with
             | '\x7d' :: r2 => some (pydict [], r2)
             | _ => (parseJMembers fuel [] r).map (fun p => (pydict p.1, p.2)))
        | '[' :: rest =>
            let r := jsonSkipWS rest
            (match r with
             | ']' :: r2 => some (pylist [], r2)
             | _ => (parseJItems fuel [] r).map (fun p => (pylist p.1, p.2)))
        | '"' :: rest => (parseJString fuel rest).map (fun p => (pystr p.1, p.2))
        | _ => parseJNumber s

/-- Parse the members of a JSON object, positioned at a key's opening quote. -/
def parseJMembers (fuel : Nat) (acc : List (Str × PyVal)) (s : Str) :
    Option (List (Str × PyVal) × Str) :=
  match fuel with
  | 0 => none
  | fuel + 1 =>
      match s with
      | '"' :: rest =>
          match parseJString fuel rest with
          | none => none
          | some (key, r1) =>
              match jsonSkipWS r1 with
              | ':' :: r3 =>
                  match parseJValue fuel r3 with
                  | none => none
                  | some (v, r4) =>
                      let acc := updateAssoc acc key v
                      (match jsonSkipWS r4 with
                       | ',' :: r6 => parseJMembers fuel acc (jsonSkipWS r6)
                       | '\x7d' :: r6 => some (acc, r6)
                       | _ => none)
              | _ => none
      | _ => none

/-- Parse the items of a JSON array, positioned at the first item. -/
def parseJItems (fuel : Nat) (acc : List PyVal) (s : Str) :
    Option (List PyVal × Str) :=
  match fuel with
  | 0 => none
  | fuel + 1 =>
      match parseJValue fuel s with
      | none => none
      | some (v, r1) =>
          let acc := acc ++ [v]
          (match jsonSkipWS r1 with
           | ',' :: r2 => parseJItems fuel acc r2
           | ']' :: r2 => some (acc, r2)
           | _ => none)
end

/-- `json.loads`: parse with adequate fuel and reject trailing data.
Returns `none` where Python raises `json.JSONDecodeError` (always caught at
every call site in the embedded code). -/
def pyLoads (s : Str) : Option PyVal :=
  match parseJValue (4 * s.length + 16) s with
  | some (v, rem) => if (jsonSkipWS rem).isEmpty then some v else none
  | none => none

/-- Build an `AltSpec` from a plain literal. -/
def alt (s : String) : AltSpec := ⟨s.data, false⟩

/-- Build an `AltSpec` with the optional parenthesized suffix. -/
def altP (s : String) : AltSpec := ⟨s.data, true⟩

/-- ``` ```json ``` fence. -/
def fenceJson : FenceSpec := ⟨"json".data, none⟩

/-- ``` ```(?!markdown) ``` fence. -/
def fencePlainNotMd : FenceSpec := ⟨[], some ("markdown".data)⟩

/-- ``` ```markdown ``` fence (matched case-sensitively in the source). -/
def fenceMd : FenceSpec := ⟨"markdown".data, none⟩

/-- The short-description search of `parse_rapid_md`. -/
def shortDescBlock (content : Str) : Option Str :=
  searchHeadingBlock true [alt ("Short Description"), alt ("API Description (Short)")]
    fencePlainNotMd content

/-- The long-description search (first ```markdown block, case-sensitive). -/
def longDescBlock (content : Str) : Option Str :=
  findBlock false fenceMd content

/-- The primary example-request-body search. -/
def bodyBlock (content : Str) : Option Str :=
  searchHeadingBlock true
    [alt ("Example Request Body"), altP ("Request body — Example"),
     alt ("**Example Request Body**")] fenceJson content

/-- The fallback example-request-body search. -/
def bodyFallbackBlock (content : Str) : Option Str :=
  searchHeadingBlock true [alt ("Request body")] fenceJson content

/-- The request-schema search. -/
def reqSchemaBlock (content : Str) : Option Str :=
  searchHeadingBlock true
    [alt ("Request body — JSON Schema"), alt ("JSON body schema")] fenceJson content

/-- The response-schema search. -/
def respSchemaBlock (content : Str) : Option Str :=
  searchHeadingBlock true [alt ("Response 200 — JSON Schema")] fenceJson content

/-- The response-example search. -/
def respExampleBlock (content : Str) : Option Str :=
  searchHeadingBlock true
    [alt ("Response 200 — Example"), altP ("200 Success Response")] fenceJson content

/-- The loose response fallback search. -/
def respFallbackBlock (content : Str) : Option Str :=
  searchHeadingBlock true
    [alt ("Response 200"), alt ("**200 Success Response")] fenceJson content

/-- The per-status error block search (`Response 400/413/500`). -/
def errBlock (status : String) (content : Str) : Option Str :=
  searchHeadingBlock true [alt ("Response " ++ status)] fenceJson content

/-- The example-request-body extraction: the captured block must parse as
JSON or it is discarded; on a miss the looser `Request body` search runs. -/
def bodyOf (content : Str) : Option Str :=
  let primary :=
    match bodyBlock content with
    | some cap =>
        let raw := pyStrip cap
        if (pyLoads raw).isSome then some raw else none
    | none => none
  match primary with
  | some b => some b
  | none =>
      match bodyFallbackBlock content with
      | some cap =>
          let raw := pyStrip cap
          if (pyLoads raw).isSome then some raw else none
      | none => none

/-- The request-schema step: parse the block and expand it with the
request-side flag; a parse failure leaves the field absent. -/
def requestSchemaStep (content : Str) : Except PyErr (Option (List Row)) :=
  match reqSchemaBlock content with
  | none => .ok none
  | some cap =>
      match pyLoads (pyStrip cap) with
      | none => .ok none
      | some schema => do
          let rows ← _json_schema_to_rows schema true
          .ok (some rows)

/-- The response-section step: locate the schema and example JSON values
(`None` is modelled by `pynone`).  A schema block that parses to a non-dict
raises `AttributeError` on `.get("properties")`, as in the source. -/
def responseJsonStep (content : Str) : Except PyErr (PyVal × PyVal) := do
  let sj0 : PyVal ←
    match respSchemaBlock content with
    | none => .ok pynone
    | some cap =>
        match pyLoads (pyStrip cap) with
        | none => .ok pynone
        | some v =>
            if !isDict v then .error "AttributeError"
            else if !pyTruthy (dictGet v ("properties".data)) &&
                !dictHasKey v ("$schema".data) then
              .ok pynone
            else .ok v
  let ej0 : PyVal :=
    match respExampleBlock content with
    | none => pynone
    | some cap =>
        match pyLoads (pyStrip cap) with
        | none => pynone
        | some v => if isDict v then v else pynone
  if !pyTruthy sj0 && !pyTruthy ej0 then
    match respFallbackBlock content with
    | none => .ok (sj0, ej0)
    | some cap =>
        match pyLoads (pyStrip cap) with
        | none => .ok (sj0, ej0)
        | some blob =>
            if isDict blob then
              if pyTruthy (dictGet blob ("properties".data)) ||
                  pyTruthy (dictGet blob ("$schema".data)) then
                .ok (blob, ej0)
              else .ok (sj0, blob)
            else .ok (sj0, ej0)
  else .ok (sj0, ej0)

/-- The inline error-codes list scanned from the `Error codes:` line. -/
def inlineCodesOf (content : Str) : List Str :=
  match extractErrLine content with
  | some cap => scanCodes cap
  | none => []

/-- One iteration of the `Response 400/413/500` loop in `_parse_error_codes`:
`obj.get("error")` raises `AttributeError` when the block parses to a
non-dict. -/
def errStatusStep (content : Str) (status : String) (codes : List ErrEntry) :
    Except PyErr (List ErrEntry) :=
  match errBlock status content with
  | none => .ok codes
  | some cap =>
      match pyLoads (pyStrip cap) with
      | none => .ok codes
      | some obj =>
          if !isDict obj then .error "AttributeError"
          else
            let err := pyOr (dictGet obj ("error".data)) (dictGet obj ("code".data))
            let msg := pyOr (dictGet obj ("message".data))
              (dictGetD obj ("details".data) (pystr []))
            if pyTruthy err && isStr err then
              match err with
              | pystr e =>
                  if !(codes.map (fun c => c.code)).contains e then
                    let desc :=
                      match lookupCodeDesc e with
                      | some d => d
                      | none =>
                          match msg with
                          | pystr m => m
                          | _ => "See RapidAPI docs.".data
                    .ok (codes ++ [⟨e, status.data, desc⟩])
                  else .ok codes
              | _ => .ok codes
            else .ok codes

/-- `_parse_error_codes`: the inline `Error codes:` scan plus the
`Response 400/413/500` loop. -/
def _parse_error_codes (content : Str) : Except PyErr (List ErrEntry) := do
  let codes0 := (inlineCodesOf content).map
    (fun code => (⟨code, "4xx/5xx".data, lookupDesc code⟩ : ErrEntry))
  let c1 ← errStatusStep content "400" codes0
  let c2 ← errStatusStep content "413" c1
  errStatusStep content "500" c2

/-- The record returned by `parse_rapid_md` (`Option` models key presence in
the Python dict; `response_schema` and `error_codes` are always set). -/
structure RapidOut where
  short_description : Option Str
  long_description : Option Str
  path : Option Str
  body : Option Str
  request_schema : Option (List Row)
  response_schema : List Row
  error_codes : List ErrEntry
deriving DecidableEq, Repr

/-- `parse_rapid_md`: extract all sections of a `Rapid.md` document. -/
def parse_rapid_md (content : Str) : Except PyErr RapidOut := do
  let shortD := (shortDescBlock content).map pyStrip
  let longD := (longDescBlock content).map pyStrip
  let path := (extractPath content).map pathNormalize
  let body := bodyOf content
  let req ← requestSchemaStep content
  let se ← responseJsonStep content
  let resp ← _response_schema_from_schema_and_example se.1 se.2
  let errs ← _parse_error_codes content
  .ok ⟨shortD, longD, path, body, req, resp, errs⟩

/-- `escape` from `generate_api_pages.py`: chained `str.replace` calls, the
ampersand first. -/
def escape (s : Str) : Str :=
  pyReplaceAll (pyReplaceAll (pyReplaceAll (pyReplaceAll s
    ("&".data) ("&amp;".data))
    ("<".data) ("&lt;".data))
    (">".data) ("&gt;".data))
    ("\"".data) ("&quot;".data)

/-- Per-page inputs of `add_nav_cta_og.py` (`PAGES[slug]` plus the slug). -/
structure PageParams where
  breadcrumb : Str
  slug : Str
  rapid_suffix : Str
  twitter : Str

/-- `BASE` of `add_nav_cta_og.py`. -/
def NAV_BASE : String := "https://precisionsolutionstech-netizen.github.io/api-catalog"

/-- The marker `'<nav class="global-nav"'` checked by the nav step. -/
def gnavMarker : Str := ("<nav class=\"global-nav\"").data

/-- The marker `'<nav aria-label="Breadcrumb">'` compared against. -/
def bcPrefixMarker : Str := ("<nav aria-label=\"Breadcrumb\">").data

/-- `NAV_HTML`. -/
def NAV_HTML : Str :=
  ("<nav class=\"global-nav\" aria-label=\"Main\"><a href=\"../index.html\">Home</a><a href=\"../index.html#normalization\">Normalization APIs</a><a href=\"../index.html#validation\">Validation APIs</a><a href=\"../index.html#comparison\">Comparison APIs</a><a href=\"../blog/what-is-data-normalization.html\">Blog</a></nav>\n        ").data

/-- The exact breadcrumb line targeted by the nav insertion. -/
def fullBreadcrumb (p : PageParams) : Str :=
  ("<nav aria-label=\"Breadcrumb\"><a href=\"../index.html\">API Catalog</a> → ").data ++
    p.breadcrumb ++ ("</nav>").data

/-- The nav-step condition: marker absent, or appearing after the first
breadcrumb prefix. -/
def navGuard (html : Str) : Bool :=
  !containsSub html gnavMarker ||
    pyFind html gnavMarker > pyFind html bcPrefixMarker

/-- The nav step: insert `NAV_HTML` before the first full breadcrumb line. -/
def navStep (p : PageParams) (html : Str) : Str :=
  if navGuard html then
    pyReplaceFirst html (fullBreadcrumb p) (NAV_HTML ++ fullBreadcrumb p)
  else html

/-- The marker `'cta-primary'`. -/
def ctaMarker : Str := ("cta-primary").data

/-- The literal `'<p class="lead">'`. -/
def leadMarker : Str := ("<p class=\"lead\">").data

/-- `rapid_url`. -/
def rapidUrl (p : PageParams) : Str :=
  ("https://rapidapi.com/precisionsolutionstech/api/").data ++ p.rapid_suffix

/-- The inserted CTA paragraph. -/
def ctaHtml (p : PageParams) : Str :=
  ("<p><a href=\"").data ++ rapidUrl p ++
    ("\" target=\"_blank\" rel=\"noopener\" class=\"cta-primary\">Try on RapidAPI</a></p>\n                ").data

/-- The CTA-step outer condition. -/
def ctaGuard (html : Str) : Bool :=
  !containsSub html ctaMarker || pyFind html ctaMarker > pyFind html leadMarker

/-- Match `(<h1>[^<]+</h1>)\s*<p class="lead">` at the start of `s`:
return group 1 and the rest after the lead literal. -/
def ctaMatchAt (s : Str) : Option (Str × Str) :=
  if ("<h1>".data).isPrefixOf s then
    let r1 := s.drop 4
    let inner := r1.takeWhile (fun c => c ≠ '<')
    if inner.isEmpty then none
    else
      let r2 := r1.drop inner.length
      if ("</h1>".data).isPrefixOf r2 then
        let r3 := r2.drop 5
        let r4 := r3.drop (r3.takeWhile isWS).length
        if leadMarker.isPrefixOf r4 then
          some (("<h1>".data) ++ inner ++ ("</h1>").data, r4.drop leadMarker.length)
        else none
      else none
  else none

/-- Leftmost CTA-pattern match: `(prefix, group1, rest)`. -/
def ctaSearchSplit : Str → Option (Str × Str × Str)
  | [] => none
  | c :: rest =>
      match ctaMatchAt (c :: rest) with
      | some gr => some ([], gr.1, gr.2)
      | none => (ctaSearchSplit rest).map (fun t => (c :: t.1, t.2.1, t.2.2))

/-- The CTA step: `re.sub(pattern, r'\1\n                ' + cta +
'<p class="lead">', html, 1)` guarded by the marker condition, the search and
the `Try on RapidAPI` prefix check (`html[:html.find(lead)]`, which is
`html[:-1]` when the lead paragraph is absent). -/
def ctaStep (p : PageParams) (html : Str) : Str :=
  if ctaGuard html then
    if (ctaSearchSplit html).isSome &&
        !containsSub (pySliceTo html (pyFind html leadMarker))
          ("Try on RapidAPI".data) then
      match ctaSearchSplit html with
      | some t =>
          t.1 ++ t.2.1 ++ ("\n                ").data ++ ctaHtml p ++
            leadMarker ++ t.2.2
      | none => html
    else html
  else html

/-- The marker `'og:image" content="'`. -/
def ogMarker : Str := ("og:image\" content=\"").data

/-- The literal `'<link rel="canonical" href="'`. -/
def canonPrefix : Str := ("<link rel=\"canonical\" href=\"").data

/-- The literal `'<meta property="og:title"'`. -/
def ogTitleLit : Str := ("<meta property=\"og:title\"").data

/-- `title = breadcrumb + (" API" if "API" not in breadcrumb else "")`. -/
def titleOf (p : PageParams) : Str :=
  if containsSub p.breadcrumb ("API".data) then p.breadcrumb
  else p.breadcrumb ++ (" API").data

/-- `OG_TWITTER.format(...)`.  The constant text is split so that the
`og:image" content="` marker appears as the separate segment `ogMarker`;
the concatenation is character-for-character the formatted template. -/
def ogInsert (p : PageParams) : Str :=
  ("    <meta property=\"og:url\" content=\"" ++ NAV_BASE ++ "/apis/").data ++ p.slug ++
    (".html\">\n    <meta property=\"").data ++ ogMarker ++
    (NAV_BASE ++
      "/og-default.png\">\n    <meta property=\"og:type\" content=\"article\">\n    <meta name=\"twitter:card\" content=\"summary_large_image\">\n    <meta name=\"twitter:title\" content=\"").data ++
    titleOf p ++
    ("\">\n    <meta name=\"twitter:description\" content=\"").data ++ p.twitter ++
    ("\">\n    <meta name=\"twitter:image\" content=\"" ++ NAV_BASE ++
      "/og-default.png\">\n").data

/-- Match `(<link rel="canonical" href="[^"]+">)\s*\n(\s*<meta
property="og:title")` at the start of `s`: `(group1, group2, rest)`.
`\s*\n` settles on the last newline of the whitespace run (backtracking to an
earlier newline cannot make the fixed-position group-2 literal match). -/
def ogMatchAt (s : Str) : Option (Str × Str × Str) :=
  if canonPrefix.isPrefixOf s then
    let r1 := s.drop canonPrefix.length
    let inner := r1.takeWhile (fun c => c ≠ '"')
    if inner.isEmpty then none
    else
      let r2 := r1.drop inner.length
      if ("\">".data).isPrefixOf r2 then
        let r3 := r2.drop 2
        let run := r3.takeWhile isWS
        match afterLastNl run with
        | none => none
        | some tail =>
            let r4 := r3.drop run.length
            if ogTitleLit.isPrefixOf r4 then
              some (canonPrefix ++ inner ++ ("\">").data, tail ++ ogTitleLit,
                    r4.drop ogTitleLit.length)
            else none
      else none
  else none

/-- Leftmost og-pattern match: `(prefix, group1, group2, rest)`. -/
def ogSearchSplit : Str → Option (Str × Str × Str × Str)
  | [] => none
  | c :: rest =>
      match ogMatchAt (c :: rest) with
      | some g => some ([], g.1, g.2.1, g.2.2)
      | none =>
          (ogSearchSplit rest).map (fun t => (c :: t.1, t.2.1, t.2.2.1, t.2.2.2))

/-- The og-step condition: the og:image marker is absent. -/
def ogGuard (html : Str) : Bool := !containsSub html ogMarker

/-- The og step: `re.sub(pattern, r'\1\n' + insert + r'\2', html, 1)` guarded
by the marker check. -/
def ogStep (p : PageParams) (html : Str) : Str :=
  if ogGuard html then
    match ogSearchSplit html with
    | some t => t.1 ++ t.2.1 ++ '\n' :: ogInsert p ++ t.2.2.1 ++ t.2.2.2
    | none => html
  else html

/-- The complete per-page transformation of `add_nav_cta_og.py`: nav, CTA and
og/twitter steps in order. -/
def applyPage (p : PageParams) (html : Str) : Str :=
  ogStep p (ctaStep p (navStep p html))

/-- Is an `Except` value a normal return? -/
def exOk {α : Type} : Except PyErr α → Bool
  | .ok _ => true
  | .error _ => false

/-- Crash-freedom of `(... or "").strip()` for a description value. -/
def descOkB (v : PyVal) : Bool := !pyTruthy v || isStr v

/-- Crash-freedom of the sub-definition handling inside `expandOne`. -/
def subDefOkB (subdef : PyVal) : Bool :=
  match subdef with
  | pydict sdd => descOkB (dictGet (pydict sdd) ("description".data))
  | _ => true

/-- Crash-freedom of `expandOne` for one property definition. -/
def defnOkB (defn : PyVal) : Bool :=
  match defn with
  | pydict d =>
      descOkB (dictGet (pydict d) ("description".data)) &&
      (let typ := topTypeStr (dictGet (pydict d) ("type".data))
       let items_def := dictGet (pydict d) ("items".data)
       if typ = "array".data && isDict items_def then
         let item_props := dictGet items_def ("properties".data)
         !pyTruthy item_props ||
           (match item_props with
            | pydict ips => ips.all (fun q => subDefOkB q.2)
            | _ => false)
       else if typ = "object".data then
         let nested := dictGet (pydict d) ("properties".data)
         !pyTruthy nested ||
           (match nested with
            | pydict ns => ns.all (fun q => subDefOkB q.2)
            | _ => false)
       else true)
  | _ => true

/-- Crash-freedom of `_expand_schema_properties` for a properties value. -/
def expandOkB (properties : PyVal) : Bool :=
  match properties with
  | pydict kvs => kvs.all (fun q => defnOkB q.2)
  | _ => true

/-- Crash-freedom of `_json_schema_to_rows` for a parsed schema value. -/
def jsonSchemaRowsOkB (v : PyVal) : Bool :=
  !pyTruthy v || !isDict v || !pyTruthy (dictGet v ("properties".data)) ||
    expandOkB (dictGet v ("properties".data))

/-- Crash-freedom of the request-schema step for a document. -/
def reqSchemaOkB (content : Str) : Bool :=
  match reqSchemaBlock content with
  | none => true
  | some cap =>
      match pyLoads (pyStrip cap) with
      | none => true
      | some v => jsonSchemaRowsOkB v

/-- The `Response 200 — JSON Schema` block, when present and parsable, parses
to an object. -/
def respSchemaParseOkB (content : Str) : Bool :=
  match respSchemaBlock content with
  | none => true
  | some cap =>
      match pyLoads (pyStrip cap) with
      | none => true
      | some v => isDict v

/-- Crash-freedom of the schema-expansion inside the response merge. -/
def mergeSafeB (sj : PyVal) : Bool :=
  !(pyTruthy sj && isDict sj && pyTruthy (dictGet sj ("properties".data))) ||
    expandOkB (dictGet sj ("properties".data))

/-- Crash-freedom of the response merge for a document. -/
def respMergeOkB (content : Str) : Bool :=
  match responseJsonStep content with
  | .ok se => mergeSafeB se.1
  | .error _ => true

/-- The `Response <status>` block, when present and parsable, parses to an
object. -/
def errBlockOkB (content : Str) (status : String) : Bool :=
  match errBlock status content with
  | none => true
  | some cap =>
      match pyLoads (pyStrip cap) with
      | none => true
      | some v => isDict v

/-- `errBlockOkB` for the three statuses scanned by `_parse_error_codes`. -/
def errBlocksOkB (content : Str) : Bool :=
  errBlockOkB content "400" && errBlockOkB content "413" &&
    errBlockOkB content "500"

/-- A field-path-safe name: no `.` and no `[` (such names are their own root
segment wherever they appear in generated field paths). -/
def cleanName (n : Str) : Bool := n.all (fun c => c ≠ '[' && c ≠ '.')

/-- Pairwise distinctness, as a boolean. -/
def nodupB : List Str → Bool
  | [] => true
  | x :: xs => !xs.contains x && nodupB xs

/-- Distinctness of the keys of the nested sub-dicts reachable from one
property definition (what Python dicts guarantee by construction). -/
def subKeysNodupB (defn : PyVal) : Bool :=
  match defn with
  | pydict d =>
      (match dictGet (dictGet (pydict d) ("items".data)) ("properties".data) with
       | pydict ips => nodupB (ips.map Prod.fst)
       | _ => true) &&
      (match dictGet (pydict d) ("properties".data) with
       | pydict ns => nodupB (ns.map Prod.fst)
       | _ => true)
  | _ => true

/-- Well-formedness hypothesis for the amended C7: distinct, field-path-safe
property names with distinct sub-keys. -/
def expandCleanB (properties : PyVal) : Bool :=
  match properties with
  | pydict kvs =>
      nodupB (kvs.map Prod.fst) &&
        kvs.all (fun q => cleanName q.1 && subKeysNodupB q.2)
  | _ => true

/-- Every row whose root segment is `key` carries `[]` in its field path. -/
def rowsBracketOkB (rows : List Row) (key : Str) : Bool :=
  rows.all (fun r => rootSeg r.field ≠ key || containsSub r.field ("[]".data))

/-- Some row has root segment `key`. -/
def rowsHasRootB (rows : List Row) (key : Str) : Bool :=
  rows.any (fun r => rootSeg r.field == key)

/-- The per-character expansion that the chained `replace` calls of `escape`
amount to (proved below in `escape_eq_flatMap`). -/
def escChar (c : Char) : Str :=
  if c = '&' then "&amp;".data
  else if c = '<' then "&lt;".data
  else if c = '>' then "&gt;".data
  else if c = '"' then "&quot;".data
  else [c]

/-- The four HTML entities produced by `escape`. -/
def escEntities : List Str :=
  ["&amp;".data, "&lt;".data, "&gt;".data, "&quot;".data]

/-- Every ampersand in `l` starts one of the four entities. -/
def ampStartsEntity (l : Str) : Prop :=
  ∀ i, l[i]? = some '&' → ∃ e ∈ escEntities, e.isPrefixOf (l.drop i)

/-- The `calendar-event-normalization` entry of `PAGES` (used for concrete
evaluations). -/
def pageCal : PageParams :=
  ⟨("Calendar Event Normalization").data, ("calendar-event-normalization").data,
   ("calendar-event-normalization").data,
   ("Unify calendar event payloads. Stateless.").data⟩

/-- A page with a decoy breadcrumb `nav` element before the real breadcrumb
line. -/
def htmlDecoy : Str :=
  ("<nav aria-label=\"Breadcrumb\">x</nav>").data ++ fullBreadcrumb pageCal

/-- A page on which all three patch guards are already disabled. -/
def htmlStable : Str :=
  gnavMarker ++ bcPrefixMarker ++ ctaMarker ++ leadMarker ++ ogMarker

/-- A concrete response schema for the merge evaluation: one `events` array
property with `items.properties` declaring `id : integer`. -/
def mergeSchema : PyVal :=
  pydict [(("properties").data, pydict [(("events").data, pydict [
    (("type").data, pystr (("array").data)),
    (("items").data, pydict [(("properties").data,
      pydict [(("id").data, pydict [(("type").data,
        pystr (("integer").data))])])])])])]

/-- The matching example: a non-empty `events` array of objects. -/
def mergeExample : PyVal :=
  pydict [(("events").data, pylist [pydict [(("id").data, pyint 1)]])]

/-- The rows produced by expanding the properties of `mergeSchema`. -/
def mergeRows : List Row :=
  [⟨("events[].id").data, ("integer").data, ("Per-item: id").data⟩]

/-- A document whose `Response 400` block parses to a non-object (a JSON
array), so `obj.get("error")` raises. -/
def errCrashDoc : Str :=
  ("Response 400\n```json\n[1]\n```\n").data

/-- A document whose response schema has an object property whose nested
`properties` value is a truthy non-mapping, so `.items()` raises during
expansion. -/
def schemaCrashDoc : Str :=
  ("Response 200 — JSON Schema\n```json\n\x7b\"properties\": \x7b\"a\": \x7b\"type\": \"object\", \"properties\": [1]\x7d\x7d\x7d\n```\n").data

/-- A well-formed document: a path line and an object-valued `Response 400`
block. -/
def healthyDoc : Str :=
  ("Path: `/normalize`\n\nResponse 400\n```json\n\x7b\"error\": \"BAD_REQUEST\"\x7d\n```\n").data

/-- C4: `_infer_type_from_value` returns exactly one label from the fixed set
`{null, boolean, integer, number, string, array, object, any}`; a boolean is
classified `"boolean"` (never `"integer"`/`"number"`); a value matching no
known JSON type yields `"any"`; the function is a pure total function. -/
theorem infer_type_total (v : PyVal) :
    _infer_type_from_value v ∈
      ["null".data, "boolean".data, "integer".data, "number".data,
       "string".data, "array".data, "object".data, "any".data] ∧
    (∀ b, v = pybool b → _infer_type_from_value v = "boolean".data) ∧
    (v = pyother → _infer_type_from_value v = "any".data) := by
  refine ⟨?_, ?_, ?_⟩ <;> cases v <;> simp [_infer_type_from_value]

/-- Witness for `infer_type_total` at concrete inputs. -/
theorem infer_type_total_witness :
    _infer_type_from_value (pybool true) = "boolean".data ∧
    _infer_type_from_value pyother = "any".data :=
  ⟨(infer_type_total (pybool true)).2.1 true rfl,
   (infer_type_total pyother).2.2 rfl⟩

/-- C10: both row-deriving entry points are total on non-object input:
`_example_to_rows` returns `[]` for every non-dict, and
`_json_schema_to_rows` returns `[]` (without raising) for every input that is
falsy, not a dict, or lacks a truthy `properties` key. -/
theorem rows_total_on_non_object (v : PyVal) (fr : Bool) :
    (isDict v = false →
      _example_to_rows v [] = [] ∧ _json_schema_to_rows v fr = .ok []) ∧
    (pyTruthy v = false → _json_schema_to_rows v fr = .ok []) ∧
    (isDict v = true → pyTruthy (dictGet v ("properties".data)) = false →
      _json_schema_to_rows v fr = .ok []) := by
  refine ⟨fun hd => ⟨?_, ?_⟩, fun ht => ?_, fun hd hp => ?_⟩
  · cases v <;> simp_all [_example_to_rows, isDict]
  · cases v <;> simp_all [_json_schema_to_rows, isDict]
  · cases v <;> simp_all [_json_schema_to_rows, pyTruthy]
  · cases v <;> simp_all [_json_schema_to_rows, isDict]

/-- Witness for `rows_total_on_non_object` at a concrete non-dict input. -/
theorem rows_total_on_non_object_witness :
    _example_to_rows (pyint 3) [] = [] ∧
    _json_schema_to_rows (pyint 3) true = .ok [] :=
  ⟨((rows_total_on_non_object (pyint 3) true).1 rfl).1,
   ((rows_total_on_non_object (pyint 3) true).1 rfl).2⟩

/-- C5: the error-code table column mapping.  A two-column table yields the
row description with HTTP status `"—"`; with three or more columns, column 1
is the description and column 2 the HTTP status; with fewer than two columns
no rows are produced. -/
theorem readme_table_column_mapping :
    _parse_readme_error_table
        (("| Code | Description |\n|---|---|\n| AUTH_INVALID | bad creds |").data) =
      [⟨"AUTH_INVALID".data, "—".data, "bad creds".data⟩] ∧
    _parse_readme_error_table
        (("| Code | When it happens | HTTP |\n|---|---|---|\n| X_CODE | oops | 400 |").data) =
      [⟨"X_CODE".data, "400".data, "oops".data⟩] ∧
    _parse_readme_error_table
        (("| Code | When | HTTP | Extra |\n|---|---|---|---|\n| Y_CODE | why | 503 | z |").data) =
      [⟨"Y_CODE".data, "503".data, "why".data⟩] ∧
    _parse_readme_error_table (("| Code |\n|---|\n| X |").data) = [] := by
  refine ⟨?_, ?_, ?_, ?_⟩ <;> rfl

/-- C6 counterexample: a data row whose description cell is present but empty
yields an entry with an empty description — the static lookup table is NOT
consulted, although it has a non-empty description for `AUTH_INVALID`. -/
theorem readme_table_empty_desc_counterexample :
    _parse_readme_error_table
        (("| Code | Description |\n|---|---|\n| AUTH_INVALID |  |").data) =
      [⟨"AUTH_INVALID".data, "—".data, []⟩] ∧
    lookupDesc ("AUTH_INVALID".data) =
      ("Authentication failed or credentials are invalid.").data ∧
    ([] : Str) ≠ ("Authentication failed or credentials are invalid.").data := by
  refine ⟨?_, ?_, ?_⟩ <;> decide

/-- C6 amended: in the per-row emission of `_parse_readme_error_table`, the
description comes verbatim (cleaned) from the row's own cell whenever that
cell exists — even when it is empty — and from the static lookup table exactly
when the description cell is absent (the row has too few cells). -/
theorem readme_row_desc_source (desc_col : Nat) (http_col : Int) (line : Str)
    (e : ErrEntry) (h : rowEntryOf desc_col http_col line = some e) :
    (desc_col < (cellsOf line).length →
      e.description = cleanCell ((cellsOf line).getD desc_col [])) ∧
    ((cellsOf line).length ≤ desc_col → e.description = lookupDesc e.code) := by
  obtain ⟨ec, eh, ed⟩ := e
  unfold rowEntryOf at h
  dsimp only at h
  split at h
  · exact Option.noConfusion h
  · split at h
    · exact Option.noConfusion h
    · have h' := Option.some.inj h
      simp only [ErrEntry.mk.injEq] at h'
      obtain ⟨hc, hh, hd⟩ := h'
      refine ⟨fun hlt => ?_, fun hge => ?_⟩
      · dsimp only
        rw [← hd, if_pos hlt]
      · dsimp only
        rw [← hd, if_neg (by omega), hc]

/-- Witness for `readme_row_desc_source` at a concrete two-column row. -/
theorem readme_row_desc_source_witness :
    (⟨"A_B".data, "—".data, "d".data⟩ : ErrEntry).description =
      cleanCell ((cellsOf (("| A_B | d |").data)).getD 1 []) :=
  (readme_row_desc_source 1 (-1) (("| A_B | d |").data)
      ⟨"A_B".data, "—".data, "d".data⟩ (by decide)).1 (by decide)

/-- A single-character `replace` is a per-character expansion. -/
theorem replaceAllAux_single (c : Char) (r : Str) (h : ([c] : Str) ≠ [])
    (s : Str) :
    pyReplaceAllAux [c] r h s = s.flatMap (fun x => if x = c then r else [x]) := by
  induction s with
  | nil => simp [pyReplaceAllAux]
  | cons x xs ih =>
      rw [pyReplaceAllAux]
      by_cases hx : x = c
      · subst hx
        simp [List.isPrefixOf, ih]
      · simp [List.isPrefixOf, hx, ih, Ne.symm hx]

/-- `pyReplaceAll` with a one-character target. -/
theorem pyReplaceAll_single (s : Str) (c : Char) (r : Str) :
    pyReplaceAll s [c] r = s.flatMap (fun x => if x = c then r else [x]) := by
  unfold pyReplaceAll
  rw [dif_neg (by simp)]
  exact replaceAllAux_single c r (by simp) s

/-- `flatMap` composes. -/
theorem flatMap_comp (f g : Char → Str) (s : Str) :
    (s.flatMap f).flatMap g = s.flatMap (fun c => (f c).flatMap g) := by
  induction s with
  | nil => rfl
  | cons x xs ih => simp [ih]

/-- The chain of `replace` calls in `escape` equals the per-character
expansion `escChar`. -/
theorem escape_eq_flatMap (s : Str) : escape s = s.flatMap escChar := by
  show pyReplaceAll (pyReplaceAll (pyReplaceAll (pyReplaceAll s
      ['&'] ("&amp;".data)) ['<'] ("&lt;".data)) ['>'] ("&gt;".data))
      ['"'] ("&quot;".data) = _
  rw [pyReplaceAll_single, pyReplaceAll_single, pyReplaceAll_single,
    pyReplaceAll_single, flatMap_comp, flatMap_comp, flatMap_comp]
  congr 1
  funext x
  by_cases h1 : x = '&'
  · subst h1; rfl
  · by_cases h2 : x = '<'
    · subst h2; rfl
    · by_cases h3 : x = '>'
      · subst h3; rfl
      · by_cases h4 : x = '"'
        · subst h4; rfl
        · simp [escChar, h1, h2, h3, h4]

/-- No block produced by `escChar` contains `<`, `>` or `"`. -/
theorem escChar_no_special (c : Char) :
    '<' ∉ escChar c ∧ '>' ∉ escChar c ∧ '"' ∉ escChar c := by
  unfold escChar
  split_ifs with h1 h2 h3 h4
  · exact ⟨by decide, by decide, by decide⟩
  · exact ⟨by decide, by decide, by decide⟩
  · exact ⟨by decide, by decide, by decide⟩
  · exact ⟨by decide, by decide, by decide⟩
  · refine ⟨fun hm => ?_, fun hm => ?_, fun hm => ?_⟩ <;>
      simp only [List.mem_singleton] at hm
    · exact h2 hm.symm
    · exact h3 hm.symm
    · exact h4 hm.symm

/-- C9 part 1: `escape` output contains no `<`, `>` or `"`. -/
theorem escape_no_special (s : Str) :
    '<' ∉ escape s ∧ '>' ∉ escape s ∧ '"' ∉ escape s := by
  rw [escape_eq_flatMap]
  induction s with
  | nil => simp
  | cons c cs ih =>
      obtain ⟨ih1, ih2, ih3⟩ := ih
      obtain ⟨e1, e2, e3⟩ := escChar_no_special c
      simp only [List.flatMap_cons, List.mem_append]
      exact ⟨fun hm => hm.elim e1 ih1, fun hm => hm.elim e2 ih2,
             fun hm => hm.elim e3 ih3⟩

/-- A prefix of itself plus anything. -/
theorem prefix_self_append (a b : Str) : a.isPrefixOf (a ++ b) = true := by
  induction a with
  | nil => simp [List.isPrefixOf]
  | cons x xs ih => simp [List.isPrefixOf, ih]

/-- Indexing an append below the left length. -/
theorem getElem?_append_lt (a b : Str) (i : Nat) (h : i < a.length) :
    (a ++ b)[i]? = a[i]? := by
  induction a generalizing i with
  | nil => simp at h
  | cons x xs ih =>
      match i with
      | 0 => simp [List.cons_append]
      | j + 1 =>
          simp only [List.cons_append, List.getElem?_cons_succ]
          exact ih j (by simpa using h)

/-- Indexing an append past the left part. -/
theorem getElem?_append_len (a b : Str) (j : Nat) :
    (a ++ b)[a.length + j]? = b[j]? := by
  induction a with
  | nil => simp
  | cons x xs ih =>
      simpa [List.cons_append, Nat.succ_add, List.getElem?_cons_succ] using ih

/-- Dropping an append past the left part. -/
theorem drop_append_len (a b : Str) (j : Nat) :
    (a ++ b).drop (a.length + j) = b.drop j := by
  induction a with
  | nil => simp
  | cons x xs ih => simp [List.cons_append, Nat.succ_add, ih]

/-- An ampersand-free list has no ampersand at any index. -/
theorem no_amp_getElem (l : Str) (hl : '&' ∉ l) (j : Nat) :
    l[j]? ≠ some '&' := by
  induction l generalizing j with
  | nil => simp
  | cons x xs ih =>
      match j with
      | 0 =>
          intro h
          simp only [List.getElem?_cons_zero, Option.some.injEq] at h
          subst h
          exact hl (List.mem_cons_self _ _)
      | j + 1 =>
          simpa using ih (fun hm => hl (List.mem_cons_of_mem x hm)) j

/-- In an entity, `&` occurs only at position `0`. -/
theorem entity_amp_pos (b : Str) (hb : b ∈ escEntities) (i : Nat)
    (hi : b[i]? = some '&') : i = 0 := by
  match i with
  | 0 => rfl
  | j + 1 =>
      exfalso
      simp only [escEntities, List.mem_cons, List.not_mem_nil, or_false] at hb
      rcases hb with rfl | rfl | rfl | rfl <;> (
        simp only [List.getElem?_cons_succ] at hi
        exact no_amp_getElem _ (by decide) j hi)

/-- Prepending an entity block preserves `ampStartsEntity`. -/
theorem entity_block_good (b rest : Str) (hb : b ∈ escEntities)
    (hr : ampStartsEntity rest) : ampStartsEntity (b ++ rest) := by
  intro i hi
  by_cases hlen : i < b.length
  · have hi0 : b[i]? = some '&' := by rwa [getElem?_append_lt b rest i hlen] at hi
    have h0 : i = 0 := entity_amp_pos b hb i hi0
    subst h0
    exact ⟨b, hb, by simp [prefix_self_append b rest]⟩
  · obtain ⟨j, rfl⟩ : ∃ j, i = b.length + j := ⟨i - b.length, by omega⟩
    rw [getElem?_append_len] at hi
    rw [drop_append_len]
    exact hr j hi

/-- C9 part 2 for the expanded form: every `&` starts an entity. -/
theorem flatMap_escChar_amp (s : Str) : ampStartsEntity (s.flatMap escChar) := by
  induction s with
  | nil => intro i hi; simp at hi
  | cons c cs ih =>
      simp only [List.flatMap_cons]
      by_cases h1 : c = '&'
      · subst h1
        exact entity_block_good _ _ (by simp [escEntities, escChar]) ih
      · by_cases h2 : c = '<'
        · subst h2
          exact entity_block_good _ _ (by simp [escEntities, escChar]) ih
        · by_cases h3 : c = '>'
          · subst h3
            exact entity_block_good _ _ (by simp [escEntities, escChar]) ih
          · by_cases h4 : c = '"'
            · subst h4
              exact entity_block_good _ _ (by simp [escEntities, escChar]) ih
            · have hc : escChar c = [c] := by simp [escChar, h1, h2, h3, h4]
              rw [hc]
              intro i hi
              match i with
              | 0 =>
                  simp only [List.singleton_append, List.getElem?_cons_zero] at hi
                  exact absurd (Option.some.inj hi) h1
              | j + 1 =>
                  simp only [List.singleton_append, List.getElem?_cons_succ] at hi
                  simpa using ih j hi

/-- C9: for every input string, `escape(s)` contains no `<`, `>` or `"`, and
every `&` in the output begins one of `&amp;`, `&lt;`, `&gt;`, `&quot;`
(the ampersand substitution runs first, so later substitutions are not
double-escaped). -/
theorem escape_html_safe (s : Str) :
    ('<' ∉ escape s ∧ '>' ∉ escape s ∧ '"' ∉ escape s) ∧
    ampStartsEntity (escape s) := by
  refine ⟨escape_no_special s, ?_⟩
  rw [escape_eq_flatMap]
  exact flatMap_escChar_amp s

/-- Witness for `escape_html_safe`: the inner implication discharged at a
concrete input and index. -/
theorem escape_html_safe_witness :
    ∃ e ∈ escEntities, e.isPrefixOf ((escape ("<".data)).drop 0) :=
  (escape_html_safe ("<".data)).2 0 (by rw [escape_eq_flatMap]; decide)

/-- Unfolding one fallible step of `parse_rapid_md`'s `do` chain. -/
theorem parse_ok_intro (content : Str) (req : Option (List Row))
    (se : PyVal × PyVal) (resp : List Row) (errs : List ErrEntry)
    (h1 : requestSchemaStep content = .ok req)
    (h2 : responseJsonStep content = .ok se)
    (h3 : _response_schema_from_schema_and_example se.1 se.2 = .ok resp)
    (h4 : _parse_error_codes content = .ok errs) :
    parse_rapid_md content =
      .ok ⟨(shortDescBlock content).map pyStrip, (longDescBlock content).map pyStrip,
           (extractPath content).map pathNormalize, bodyOf content, req, resp, errs⟩ := by
  unfold parse_rapid_md
  rw [h1]
  dsimp only [bind, Except.bind]
  rw [h2]
  dsimp only [bind, Except.bind]
  rw [h3]
  dsimp only [bind, Except.bind]
  rw [h4]

/-- A successful `parse_rapid_md` run reports exactly the path-extractor
result (normalized by the dead prepend branch). -/
theorem parse_ok_path (content : Str) (r : RapidOut)
    (hr : parse_rapid_md content = .ok r) :
    r.path = (extractPath content).map pathNormalize := by
  unfold parse_rapid_md at hr
  cases h1 : requestSchemaStep content with
  | error e =>
      rw [h1] at hr; dsimp only [bind, Except.bind] at hr
      exact Except.noConfusion hr
  | ok req =>
      rw [h1] at hr; dsimp only [bind, Except.bind] at hr
      cases h2 : responseJsonStep content with
      | error e =>
          rw [h2] at hr; dsimp only [bind, Except.bind] at hr
          exact Except.noConfusion hr
      | ok se =>
          rw [h2] at hr; dsimp only [bind, Except.bind] at hr
          cases h3 : _response_schema_from_schema_and_example se.1 se.2 with
          | error e =>
              rw [h3] at hr; dsimp only [bind, Except.bind] at hr
              exact Except.noConfusion hr
          | ok resp =>
              rw [h3] at hr; dsimp only [bind, Except.bind] at hr
              cases h4 : _parse_error_codes content with
              | error e =>
                  rw [h4] at hr; dsimp only [bind, Except.bind] at hr
                  exact Except.noConfusion hr
              | ok errs =>
                  rw [h4] at hr; dsimp only [bind, Except.bind] at hr
                  cases Except.ok.inj hr
                  rfl

/-- The capture of the path pattern core always begins with a slash. -/
theorem pathCore_slash (s p : Str) (h : pathCore s = some p) : ∃ t, p = '/' :: t := by
  unfold pathCore at h
  split at h
  · dsimp only at h
    split at h
    · split at h
      · split at h
        · exact Option.noConfusion h
        · exact ⟨_, (Option.some.inj h).symm⟩
      · exact Option.noConfusion h
    · exact Option.noConfusion h
  · exact Option.noConfusion h

/-- The capture of the path pattern always begins with a slash. -/
theorem pathAt_slash (s p : Str) (h : pathAt s = some p) : ∃ t, p = '/' :: t := by
  unfold pathAt at h
  split at h
  · split at h
    · rename_i q hq
      cases h
      exact pathCore_slash _ _ hq
    · exact pathCore_slash _ _ h
  · exact pathCore_slash _ _ h

/-- The extracted path always begins with a slash. -/
theorem extractPath_slash (content p : Str) (h : extractPath content = some p) :
    ∃ t, p = '/' :: t := by
  induction content with
  | nil => exact Option.noConfusion h
  | cons c rest ih =>
      rw [extractPath] at h
      split at h
      · rename_i q hq
        cases h
        exact pathAt_slash _ _ hq
      · exact ih h

/-- C2 counterexample: a document consisting of the line `Path: normalize`
(no backticks, no leading slash) yields NO path at all — not `"/normalize"`:
the capture group `(/[a-zA-Z0-9_-]+)` itself requires the leading slash, so
the pattern does not match. -/
theorem path_no_slash_counterexample :
    parse_rapid_md (("Path: normalize").data) =
      .ok ⟨none, none, none, none, none, [], []⟩ ∧
    (none : Option Str) ≠ some (("/normalize").data) := by
  exact ⟨by rfl, by simp⟩

/-- C2 amended: whenever the extractor captures a path token, that token
already begins with `/` (the pattern demands it), the prepend branch of the
source is the identity on it, and `parse_rapid_md` reports it verbatim.  A
`Path:` line whose token lacks the slash produces no match and hence no
`path` field. -/
theorem path_always_slashed (content p : Str)
    (h : extractPath content = some p) :
    p.take 1 = ['/'] ∧ pathNormalize p = p ∧
    (∀ r, parse_rapid_md content = .ok r → r.path = some p) := by
  obtain ⟨t, rfl⟩ := extractPath_slash content p h
  have hnorm : pathNormalize ('/' :: t) = '/' :: t := by
    simp [pathNormalize, List.isPrefixOf]
  refine ⟨rfl, hnorm, fun r hr => ?_⟩
  rw [parse_ok_path content r hr, h]
  simp [hnorm]

/-- Witness for `path_always_slashed` at a concrete document. -/
theorem path_always_slashed_witness :
    (("/ok").data).take 1 = ['/'] :=
  (path_always_slashed (("Path: `/ok`").data) (("/ok").data) (by rfl)).1

/-- C7 counterexample: property `"a"` (an object with sub-property `"b"`) and
property `"a.b"` both produce the field path `a.b`, so the expanded row list
does not have pairwise-distinct field values. -/
theorem expand_fields_dup_counterexample :
    _expand_schema_properties (pydict [
      (("a").data, pydict [(("type").data, pystr (("object").data)),
        (("properties").data,
          pydict [(("b").data, pydict [(("type").data, pystr (("string").data))])])]),
      (("a.b").data, pydict [(("type").data, pystr (("string").data))])]) false [] =
      .ok [⟨("a.b").data, ("string").data, ("b").data⟩,
           ⟨("a.b").data, ("string").data, []⟩] ∧
    ¬ (([⟨("a.b").data, ("string").data, ("b").data⟩,
         ⟨("a.b").data, ("string").data, []⟩] : List Row).map Row.field).Nodup := by
  exact ⟨by rfl, by decide⟩

/-- `takeWhile` keeps a list all of whose elements satisfy the predicate. -/
theorem takeWhile_all {p : Char → Bool} (l : Str) (h : ∀ c ∈ l, p c = true) :
    l.takeWhile p = l := by
  induction l with
  | nil => rfl
  | cons x xs ih =>
      simp only [List.takeWhile_cons, h x (List.mem_cons_self x xs), if_true]
      rw [ih (fun c hc => h c (List.mem_cons_of_mem x hc))]

/-- `takeWhile` over an append stopping exactly at the boundary. -/
theorem takeWhile_append_stop {p : Char → Bool} (a : Str) (b0 : Char) (t : Str)
    (ha : ∀ c ∈ a, p c = true) (hb : p b0 = false) :
    (a ++ b0 :: t).takeWhile p = a := by
  induction a with
  | nil => simp [List.takeWhile_cons, hb]
  | cons x xs ih =>
      simp only [List.cons_append, List.takeWhile_cons,
        ha x (List.mem_cons_self x xs), if_true]
      rw [ih (fun c hc => ha c (List.mem_cons_of_mem x hc))]

/-- A field-path-safe name is its own root segment. -/
theorem rootSeg_clean (n : Str) (h : cleanName n = true) : rootSeg n = n := by
  unfold rootSeg
  exact takeWhile_all n (by simpa [cleanName, List.all_eq_true] using h)

/-- Appending a bracket or dot suffix to a field-path-safe name keeps the
root segment. -/
theorem rootSeg_clean_append (n : Str) (h : cleanName n = true) (c : Char)
    (hc : c = '[' ∨ c = '.') (t : Str) : rootSeg (n ++ c :: t) = n := by
  unfold rootSeg
  refine takeWhile_append_stop n c t
    (by simpa [cleanName, List.all_eq_true] using h) ?_
  rcases hc with rfl | rfl <;> simp

/-- `nodupB` is propositional `Nodup`. -/
theorem nodupB_iff (l : List Str) : nodupB l = true ↔ l.Nodup := by
  induction l with
  | nil => simp [nodupB]
  | cons x xs ih =>
      simp only [nodupB, Bool.and_eq_true, Bool.not_eq_true', List.nodup_cons, ih]
      constructor
      · rintro ⟨hc, hd⟩
        refine ⟨fun hm => ?_, hd⟩
        simp only [List.contains] at hc
        rw [List.elem_eq_true_of_mem hm] at hc
        exact Bool.noConfusion hc
      · rintro ⟨hm, hd⟩
        refine ⟨?_, hd⟩
        by_cases hx : xs.contains x = true
        · exact absurd (List.mem_of_elem_eq_true hx) hm
        · simpa using hx

/-- Decompose a successful `exceptFlatMap` over a cons. -/
theorem exceptFlatMap_cons_ok {α β : Type} (f : α → Except PyErr (List β))
    (x : α) (xs : List α) (rows : List β)
    (h : exceptFlatMap f (x :: xs) = .ok rows) :
    ∃ ys rest, f x = .ok ys ∧ exceptFlatMap f xs = .ok rest ∧ rows = ys ++ rest := by
  rw [exceptFlatMap] at h
  cases hfx : f x with
  | error e =>
      rw [hfx] at h; dsimp only [bind, Except.bind] at h
      exact Except.noConfusion h
  | ok ys =>
      rw [hfx] at h; dsimp only [bind, Except.bind] at h
      cases hrest : exceptFlatMap f xs with
      | error e =>
          rw [hrest] at h; dsimp only [bind, Except.bind] at h
          exact Except.noConfusion h
      | ok rest =>
          rw [hrest] at h; dsimp only [bind, Except.bind] at h
          exact ⟨ys, rest, rfl, rfl, (Except.ok.inj h).symm⟩

/-- Shape and distinctness of the `field[].subfield` rows. -/
theorem arrayItemRows_spec (fn : Str) (ips : List (Str × PyVal)) (rs : List Row)
    (h : arrayItemRows fn ips = .ok rs) :
    (∀ r ∈ rs, ∃ sub ∈ ips.map Prod.fst, r.field = fn ++ ("[].").data ++ sub) ∧
    (nodupB (ips.map Prod.fst) = true → (rs.map Row.field).Nodup) := by
  induction ips generalizing rs with
  | nil =>
      rw [arrayItemRows] at h
      cases Except.ok.inj h
      simp
  | cons p rest ih =>
      obtain ⟨sub, sd⟩ := p
      rw [arrayItemRows] at h
      cases htail : arrayItemRows fn rest with
      | error e =>
          rw [htail] at h; dsimp only [bind, Except.bind] at h
          exact Except.noConfusion h
      | ok tail =>
          rw [htail] at h; dsimp only [bind, Except.bind] at h
          obtain ⟨ihm, ihn⟩ := ih tail htail
          split at h
          · rename_i sdd
            cases hdesc : descOf (dictGet (pydict sdd) (("description").data)) with
            | error e =>
                rw [hdesc] at h; dsimp only [bind, Except.bind] at h
                exact Except.noConfusion h
            | ok sdesc =>
                rw [hdesc] at h; dsimp only [bind, Except.bind] at h
                cases Except.ok.inj h
                constructor
                · intro r hr
                  rcases List.mem_cons.mp hr with rfl | hr
                  · exact ⟨sub, by
                      simp only [List.map_cons]
                      exact List.mem_cons_self _ _, rfl⟩
                  · obtain ⟨s, hs, hf⟩ := ihm r hr
                    exact ⟨s, by
                      simp only [List.map_cons]
                      exact List.mem_cons_of_mem _ hs, hf⟩
                · intro hnd
                  simp only [List.map_cons, nodupB, Bool.and_eq_true,
                    Bool.not_eq_true'] at hnd
                  refine List.nodup_cons.mpr ⟨?_, ihn hnd.2⟩
                  dsimp only
                  intro hmem
                  obtain ⟨r, hr, hf⟩ := List.mem_map.mp hmem
                  obtain ⟨s, hs, hf2⟩ := ihm r hr
                  have hss : sub = s :=
                    (List.append_right_inj (fn ++ ("[].").data)).mp (by rw [← hf, hf2])
                  subst hss
                  simp only [List.contains] at hnd
                  rw [List.elem_eq_true_of_mem hs] at hnd
                  exact Bool.noConfusion hnd.1
          · cases Except.ok.inj h
            constructor
            · intro r hr
              obtain ⟨s, hs, hf⟩ := ihm r hr
              exact ⟨s, by
                simp only [List.map_cons]
                exact List.mem_cons_of_mem _ hs, hf⟩
            · intro hnd
              simp only [List.map_cons, nodupB, Bool.and_eq_true,
                Bool.not_eq_true'] at hnd
              exact ihn hnd.2

/-- Shape and distinctness of the `field.subfield` rows. -/
theorem objectSubRows_spec (fn : Str) (ns : List (Str × PyVal)) (rs : List Row)
    (h : objectSubRows fn ns = .ok rs) :
    (∀ r ∈ rs, ∃ sub ∈ ns.map Prod.fst, r.field = fn ++ (".").data ++ sub) ∧
    (nodupB (ns.map Prod.fst) = true → (rs.map Row.field).Nodup) := by
  induction ns generalizing rs with
  | nil =>
      rw [objectSubRows] at h
      cases Except.ok.inj h
      simp
  | cons p rest ih =>
      obtain ⟨sub, sd⟩ := p
      rw [objectSubRows] at h
      cases htail : objectSubRows fn rest with
      | error e =>
          rw [htail] at h; dsimp only [bind, Except.bind] at h
          exact Except.noConfusion h
      | ok tail =>
          rw [htail] at h; dsimp only [bind, Except.bind] at h
          obtain ⟨ihm, ihn⟩ := ih tail htail
          split at h
          · rename_i sdd
            cases hdesc : descOf (dictGet (pydict sdd) (("description").data)) with
            | error e =>
                rw [hdesc] at h; dsimp only [bind, Except.bind] at h
                exact Except.noConfusion h
            | ok sdesc =>
                rw [hdesc] at h; dsimp only [bind, Except.bind] at h
                cases Except.ok.inj h
                constructor
                · intro r hr
                  rcases List.mem_cons.mp hr with rfl | hr
                  · exact ⟨sub, by
                      simp only [List.map_cons]
                      exact List.mem_cons_self _ _, rfl⟩
                  · obtain ⟨s, hs, hf⟩ := ihm r hr
                    exact ⟨s, by
                      simp only [List.map_cons]
                      exact List.mem_cons_of_mem _ hs, hf⟩
                · intro hnd
                  simp only [List.map_cons, nodupB, Bool.and_eq_true,
                    Bool.not_eq_true'] at hnd
                  refine List.nodup_cons.mpr ⟨?_, ihn hnd.2⟩
                  dsimp only
                  intro hmem
                  obtain ⟨r, hr, hf⟩ := List.mem_map.mp hmem
                  obtain ⟨s, hs, hf2⟩ := ihm r hr
                  have hss : sub = s :=
                    (List.append_right_inj (fn ++ (".").data)).mp (by rw [← hf, hf2])
                  subst hss
                  simp only [List.contains] at hnd
                  rw [List.elem_eq_true_of_mem hs] at hnd
                  exact Bool.noConfusion hnd.1
          · cases Except.ok.inj h
            constructor
            · intro r hr
              obtain ⟨s, hs, hf⟩ := ihm r hr
              exact ⟨s, by
                simp only [List.map_cons]
                exact List.mem_cons_of_mem _ hs, hf⟩
            · intro hnd
              simp only [List.map_cons, nodupB, Bool.and_eq_true,
                Bool.not_eq_true'] at hnd
              exact ihn hnd.2

/-- Root segments and distinctness of the rows produced for one property. -/
theorem expandOne_spec (fr : Bool) (n : Str) (d : PyVal) (rs : List Row)
    (h : expandOne fr [] (n, d) = .ok rs)
    (hc : cleanName n = true) (hk : subKeysNodupB d = true) :
    (∀ r ∈ rs, rootSeg r.field = n) ∧ (rs.map Row.field).Nodup := by
  cases d
  case pydict dd =>
    unfold expandOne at h
    dsimp only at h
    cases hdesc : descOf (dictGet (pydict dd) (("description").data)) with
    | error e =>
        rw [hdesc] at h; dsimp only [bind, Except.bind] at h
        exact Except.noConfusion h
    | ok desc0 =>
        rw [hdesc] at h; dsimp only [bind, Except.bind] at h
        split at h
        · -- array with dict items
          split at h
          · -- truthy item_props
            split at h
            · -- item_props is a dict
              rename_i ips heq
              obtain ⟨hm, hnd⟩ := arrayItemRows_spec _ ips rs h
              constructor
              · intro r hr
                obtain ⟨s, hs, hf⟩ := hm r hr
                rw [hf, List.append_assoc]
                exact rootSeg_clean_append n hc '[' (Or.inl rfl) _
              · refine hnd ?_
                unfold subKeysNodupB at hk
                dsimp only at hk
                rw [heq] at hk
                dsimp only at hk
                simp only [Bool.and_eq_true] at hk
                exact hk.1
            · exact Except.noConfusion h
          · -- falsy item_props: one generic array row
            cases Except.ok.inj h
            refine ⟨?_, by simp⟩
            intro r hr
            rw [List.mem_singleton.mp hr]
            exact rootSeg_clean n hc
        · split at h
          · -- object
            split at h
            · -- truthy nested
              split at h
              · rename_i ns heq
                obtain ⟨hm, hnd⟩ := objectSubRows_spec _ ns rs h
                constructor
                · intro r hr
                  obtain ⟨s, hs, hf⟩ := hm r hr
                  rw [hf, List.append_assoc]
                  exact rootSeg_clean_append n hc '.' (Or.inr rfl) _
                · refine hnd ?_
                  unfold subKeysNodupB at hk
                  dsimp only at hk
                  rw [heq] at hk
                  dsimp only at hk
                  simp only [Bool.and_eq_true] at hk
                  exact hk.2
              · exact Except.noConfusion h
            · -- falsy nested: one generic object row
              cases Except.ok.inj h
              refine ⟨?_, by simp⟩
              intro r hr
              rw [List.mem_singleton.mp hr]
              exact rootSeg_clean n hc
          · -- plain row
            cases Except.ok.inj h
            refine ⟨?_, by simp⟩
            intro r hr
            rw [List.mem_singleton.mp hr]
            exact rootSeg_clean n hc
  all_goals
    cases Except.ok.inj (show (Except.ok [] : Except PyErr (List Row)) = .ok rs from h)
  all_goals exact ⟨by simp, by simp⟩

/-- Induction core for the amended C7: distinct fields, root-segment
membership, and encounter-order blocks. -/
theorem expand_kvs_spec (fr : Bool) (kvs : List (Str × PyVal)) (rows : List Row)
    (hexp : exceptFlatMap (expandOne fr []) kvs = .ok rows)
    (hnd : nodupB (kvs.map Prod.fst) = true)
    (hall : kvs.all (fun q => cleanName q.1 && subKeysNodupB q.2) = true) :
    (rows.map Row.field).Nodup ∧
    (∀ r ∈ rows, rootSeg r.field ∈ kvs.map Prod.fst) ∧
    ∃ blocks : List (List Row), rows = blocks.flatten ∧
      blocks.length = kvs.length ∧
      ∀ pr ∈ blocks.zip kvs, ∀ r ∈ pr.1, rootSeg r.field = pr.2.1 := by
  induction kvs generalizing rows with
  | nil =>
      rw [exceptFlatMap] at hexp
      cases Except.ok.inj hexp
      exact ⟨by simp, fun r hr => absurd hr (List.not_mem_nil r), [], rfl, rfl,
             fun pr hpr => absurd hpr (List.not_mem_nil pr)⟩
  | cons q rest ih =>
      obtain ⟨n, d⟩ := q
      obtain ⟨ys, rows', h1, h2, rfl⟩ := exceptFlatMap_cons_ok _ _ _ _ hexp
      simp only [List.map_cons, nodupB, Bool.and_eq_true, Bool.not_eq_true'] at hnd
      simp only [List.all_cons, Bool.and_eq_true] at hall
      obtain ⟨⟨hcn, hkd⟩, hrest⟩ := hall
      obtain ⟨hroot, hysnd⟩ := expandOne_spec fr n d ys h1 hcn hkd
      obtain ⟨ihnd, ihmem, blocks', hb1, hb2, hb3⟩ := ih rows' h2 hnd.2 hrest
      refine ⟨?_, ?_, ys :: blocks', by simp [hb1], by simp [hb2], ?_⟩
      · rw [List.map_append]
        refine List.Nodup.append hysnd ihnd ?_
        intro f hf1 hf2
        obtain ⟨r1, hr1, hfr1⟩ := List.mem_map.mp hf1
        obtain ⟨r2, hr2, hfr2⟩ := List.mem_map.mp hf2
        have he1 : rootSeg f = n := by rw [← hfr1]; exact hroot r1 hr1
        have he2 : rootSeg f ∈ rest.map Prod.fst := by
          rw [← hfr2]; exact ihmem r2 hr2
        rw [he1] at he2
        simp only [List.contains] at hnd
        rw [List.elem_eq_true_of_mem he2] at hnd
        exact Bool.noConfusion hnd.1
      · intro r hr
        rcases List.mem_append.mp hr with hr | hr
        · simp only [List.map_cons]
          rw [hroot r hr]
          exact List.mem_cons_self _ _
        · simp only [List.map_cons]
          exact List.mem_cons_of_mem _ (ihmem r hr)
      · intro pr hpr
        rcases List.mem_cons.mp hpr with rfl | hpr
        · exact hroot
        · exact hb3 pr hpr

/-- C7 amended: for a schema properties mapping whose property names are
distinct and contain no `.` or `[` (and whose nested sub-dicts have distinct
keys, as Python dicts guarantee), the expanded row list has pairwise-distinct
field values, each row's root segment is one of the property names, and the
rows fall into contiguous blocks in input-mapping encounter order. -/
theorem expand_fields_nodup_ordered (props : PyVal) (fr : Bool) (rows : List Row)
    (hexp : _expand_schema_properties props fr [] = .ok rows)
    (hclean : expandCleanB props = true) :
    (rows.map Row.field).Nodup ∧
    (∀ r ∈ rows, rootSeg r.field ∈ (dictItems props).map Prod.fst) ∧
    ∃ blocks : List (List Row), rows = blocks.flatten ∧
      blocks.length = (dictItems props).length ∧
      ∀ pr ∈ blocks.zip (dictItems props), ∀ r ∈ pr.1, rootSeg r.field = pr.2.1 := by
  cases props
  case pydict kvs =>
    unfold expandCleanB at hclean
    dsimp only at hclean
    simp only [Bool.and_eq_true] at hclean
    exact expand_kvs_spec fr kvs rows hexp hclean.1 hclean.2
  all_goals
    cases Except.ok.inj
      (show (Except.ok [] : Except PyErr (List Row)) = .ok rows from hexp)
  all_goals
    exact ⟨by simp, fun r hr => absurd hr (List.not_mem_nil r), [], rfl, rfl,
           fun pr hpr => absurd hpr (List.not_mem_nil pr)⟩

/-- Witness for `expand_fields_nodup_ordered` at a concrete clean schema. -/
theorem expand_fields_nodup_ordered_witness :
    (([⟨("events[].id").data, ("integer").data, ("Per-item: id").data⟩] :
        List Row).map Row.field).Nodup :=
  (expand_fields_nodup_ordered (pydict [(("events").data, pydict [
      (("type").data, pystr (("array").data)),
      (("items").data, pydict [(("properties").data,
        pydict [(("id").data, pydict [(("type").data, pystr (("integer").data))])])])])])
    false
    [⟨("events[].id").data, ("integer").data, ("Per-item: id").data⟩]
    (by rfl) (by decide)).1

/-- An empty needle occurs in every haystack. -/
theorem containsSub_nil_needle (hay : Str) : containsSub hay [] = true := by
  cases hay <;> simp [containsSub, prefixMatch]

/-- A prefix match survives extending the haystack. -/
theorem prefixMatch_extend (ci : Bool) (n s t : Str)
    (h : prefixMatch ci n s = true) : prefixMatch ci n (s ++ t) = true := by
  induction n generalizing s with
  | nil => simp [prefixMatch]
  | cons c cs ih =>
      cases s with
      | nil => exact Bool.noConfusion h
      | cons x xs =>
          simp only [prefixMatch, Bool.and_eq_true, List.cons_append] at h ⊢
          exact ⟨h.1, ih xs h.2⟩

/-- A prefix occurrence is an occurrence. -/
theorem containsSub_of_prefixMatch (hay n : Str)
    (h : prefixMatch false n hay = true) : containsSub hay n = true := by
  cases hay with
  | nil =>
      cases n with
      | nil => rfl
      | cons c cs => exact Bool.noConfusion h
  | cons x xs => simp [containsSub, h]

/-- Containment in the right part of an append. -/
theorem containsSub_append_right (x y n : Str)
    (h : containsSub y n = true) : containsSub (x ++ y) n = true := by
  induction x with
  | nil => exact h
  | cons c cs ih => simp [containsSub, ih]

/-- Containment in the left part of an append. -/
theorem containsSub_append_left (x y n : Str)
    (h : containsSub x n = true) : containsSub (x ++ y) n = true := by
  induction x with
  | nil =>
      cases n with
      | nil => exact containsSub_nil_needle y
      | cons c cs => exact Bool.noConfusion h
  | cons c cs ih =>
      simp only [containsSub, Bool.or_eq_true, List.cons_append] at h ⊢
      rcases h with h | h
      · exact Or.inl (prefixMatch_extend false n (c :: cs) y h)
      · exact Or.inr (ih h)

/-- Containment below a cons. -/
theorem containsSub_cons (c : Char) (x n : Str)
    (h : containsSub x n = true) : containsSub (c :: x) n = true := by
  simp [containsSub, h]

/-- The needle itself heads an append. -/
theorem prefixMatch_refl (n : Str) : prefixMatch false n n = true := by
  induction n with
  | nil => rfl
  | cons c cs ih => simp [prefixMatch, chEq, ih]

/-- Containment of the needle at the head of an append. -/
theorem containsSub_self_append (n z : Str) : containsSub (n ++ z) n = true :=
  containsSub_of_prefixMatch _ _ (prefixMatch_extend false n n z (prefixMatch_refl n))

/-- A needle occurs in itself. -/
theorem containsSub_refl (n : Str) : containsSub n n = true :=
  containsSub_of_prefixMatch _ _ (prefixMatch_refl n)

/-- The inserted og/twitter block contains the og:image marker. -/
theorem ogInsert_contains_marker (p : PageParams) :
    containsSub (ogInsert p) ogMarker = true := by
  unfold ogInsert
  apply containsSub_append_left
  apply containsSub_append_left
  apply containsSub_append_left
  apply containsSub_append_left
  apply containsSub_append_left
  exact containsSub_append_right _ _ _ (containsSub_refl ogMarker)

/-- C8 counterexample: on a page with a decoy `<nav aria-label="Breadcrumb">`
element before the real breadcrumb line, the nav-insertion guard re-fires and
the second application of the patch transformation inserts the global nav a
second time. -/
theorem applyPage_not_idempotent_counterexample :
    applyPage pageCal (applyPage pageCal htmlDecoy) ≠ applyPage pageCal htmlDecoy := by
  set_option maxRecDepth 100000 in set_option maxHeartbeats 2000000 in decide

/-- C8 amended: the og/twitter-metadata step is idempotent on every input
(its marker check alone disables re-insertion), and the full three-step
transformation is idempotent whenever the three marker checks are disabled
after one application — which the decoy-breadcrumb counterexample shows is
not the case for arbitrary input. -/
theorem applyPage_idempotent_guarded (p : PageParams) (h : Str) :
    ogStep p (ogStep p h) = ogStep p h ∧
    (navGuard (applyPage p h) = false → ctaGuard (applyPage p h) = false →
      ogGuard (applyPage p h) = false →
      applyPage p (applyPage p h) = applyPage p h) := by
  constructor
  · by_cases hg : ogGuard h = true
    · cases hsplit : ogSearchSplit h with
      | none =>
          have e1 : ogStep p h = h := by
            unfold ogStep; rw [if_pos hg, hsplit]
          rw [e1, e1]
      | some t =>
          have e1 : ogStep p h =
              t.1 ++ t.2.1 ++ '\n' :: ogInsert p ++ t.2.2.1 ++ t.2.2.2 := by
            unfold ogStep; rw [if_pos hg, hsplit]
          rw [e1]
          have hc : containsSub
              (t.1 ++ t.2.1 ++ '\n' :: ogInsert p ++ t.2.2.1 ++ t.2.2.2)
              ogMarker = true := by
            apply containsSub_append_left
            apply containsSub_append_left
            apply containsSub_append_right
            exact containsSub_cons '\n' _ _ (ogInsert_contains_marker p)
          have hg2 : ogGuard
              (t.1 ++ t.2.1 ++ '\n' :: ogInsert p ++ t.2.2.1 ++ t.2.2.2) = false := by
            unfold ogGuard
            rw [hc]
            rfl
          unfold ogStep
          rw [if_neg (by rw [hg2]; exact Bool.noConfusion)]
    · have e1 : ogStep p h = h := by
        unfold ogStep; rw [if_neg hg]
      rw [e1, e1]
  · intro hn hc ho
    have e1 : navStep p (applyPage p h) = applyPage p h := by
      unfold navStep
      rw [if_neg (by rw [hn]; exact Bool.noConfusion)]
    have e2 : ctaStep p (applyPage p h) = applyPage p h := by
      unfold ctaStep
      rw [if_neg (by rw [hc]; exact Bool.noConfusion)]
    have e3 : ogStep p (applyPage p h) = applyPage p h := by
      unfold ogStep
      rw [if_neg (by rw [ho]; exact Bool.noConfusion)]
    show ogStep p (ctaStep p (navStep p (applyPage p h))) = applyPage p h
    rw [e1, e2, e3]

/-- Witness for `applyPage_idempotent_guarded`: a fully patched page is a
fixed point. -/
theorem applyPage_idempotent_guarded_witness :
    applyPage pageCal (applyPage pageCal htmlStable) = applyPage pageCal htmlStable :=
  (applyPage_idempotent_guarded pageCal htmlStable).2 (by decide) (by decide)
    (by decide)

/-- `takeWhile` over an append whose boundary character fails the predicate
stops no later than the boundary. -/
theorem takeWhile_append_brk {p : Char → Bool} (a : Str) (b : Char) (t : Str)
    (hb : p b = false) : (a ++ b :: t).takeWhile p = a.takeWhile p := by
  induction a with
  | nil => simp [List.takeWhile_cons, hb]
  | cons x xs ih =>
      cases hx : p x with
      | false => simp [List.takeWhile_cons, hx]
      | true => simp [List.takeWhile_cons, hx, ih]

/-- Appending a `[].`-suffix never changes the root segment. -/
theorem rootSeg_bracket_suffix (k s : Str) :
    rootSeg (k ++ ("[].").data ++ s) = rootSeg k := by
  rw [List.append_assoc]
  have hd : (("[].").data : Str) ++ s = '[' :: ']' :: '.' :: s := rfl
  rw [hd]
  unfold rootSeg
  exact takeWhile_append_brk k '[' (']' :: '.' :: s) (by decide)

/-- Appending a `.`-suffix never changes the root segment. -/
theorem rootSeg_dot_suffix (k s : Str) :
    rootSeg (k ++ (".").data ++ s) = rootSeg k := by
  rw [List.append_assoc]
  have hd : ((".").data : Str) ++ s = '.' :: s := rfl
  rw [hd]
  unfold rootSeg
  exact takeWhile_append_brk k '.' s (by decide)

/-- Members of the `array_fields_without_items` accumulator come from the
initial accumulator or from a row satisfying the replacement condition. -/
theorem afwi_fold_mem (rows : List Row) : ∀ (acc : List Str) (k : Str),
    k ∈ rows.foldl (fun acc r =>
      if condReplace r && !acc.contains r.field then acc ++ [r.field] else acc)
      acc →
    k ∈ acc ∨ ∃ r ∈ rows, r.field = k ∧ condReplace r = true := by
  induction rows with
  | nil => intro acc k hk; exact Or.inl hk
  | cons r rest ih =>
      intro acc k hk
      rw [List.foldl_cons] at hk
      rcases ih _ k hk with hacc | ⟨r', hr', hf, hcnd⟩
      · by_cases hcond : (condReplace r && !acc.contains r.field) = true
        · rw [if_pos hcond] at hacc
          rcases List.mem_append.mp hacc with h1 | h2
          · exact Or.inl h1
          · have hcnd2 : condReplace r = true := by
              have h3 := hcond
              simp only [Bool.and_eq_true] at h3
              exact h3.1
            exact Or.inr ⟨r, List.mem_cons_self r rest,
              (List.mem_singleton.mp h2).symm, hcnd2⟩
        · rw [if_neg hcond] at hacc
          exact Or.inl hacc
      · exact Or.inr ⟨r', List.mem_cons_of_mem r hr', hf, hcnd⟩

/-- Every collected array field is the field of a row satisfying the
replacement condition. -/
theorem afwiOf_mem (rows : List Row) (k : Str) (hk : k ∈ afwiOf rows) :
    ∃ r ∈ rows, r.field = k ∧ condReplace r = true := by
  unfold afwiOf at hk
  exact (afwi_fold_mem rows [] k hk).resolve_left (List.not_mem_nil k)

/-- A list with distinct images is injective on its members. -/
theorem nodup_map_mem_inj {α β : Type} (f : α → β) :
    ∀ (l : List α), (l.map f).Nodup →
      ∀ a ∈ l, ∀ b ∈ l, f a = f b → a = b := by
  intro l
  induction l with
  | nil => intro _ a ha; exact absurd ha (List.not_mem_nil a)
  | cons x xs ih =>
      intro h a ha b hb hfab
      rw [List.map_cons, List.nodup_cons] at h
      rcases List.mem_cons.mp ha with rfl | ha'
      · rcases List.mem_cons.mp hb with rfl | hb'
        · rfl
        · exact absurd (by rw [hfab]; exact List.mem_map.mpr ⟨b, hb', rfl⟩) h.1
      · rcases List.mem_cons.mp hb with rfl | hb'
        · exact absurd (by rw [← hfab]; exact List.mem_map.mpr ⟨a, ha', rfl⟩) h.1
        · exact ih h.2 a ha' b hb' hfab

/-- Rows all rooted away from `key` vanish under the root filter. -/
theorem filter_root_nil (l : List Row) (key : Str)
    (h : ∀ r ∈ l, rootSeg r.field ≠ key) :
    l.filter (fun r => rootSeg r.field == key) = [] := by
  induction l with
  | nil => rfl
  | cons x xs ih =>
      have hx : (rootSeg x.field == key) = false := by
        simp [beq_iff_eq, h x (List.mem_cons_self x xs)]
      simp only [List.filter_cons, hx]
      exact ih (fun r hr => h r (List.mem_cons_of_mem x hr))

/-- Dropping the rows at a field rooted away from `key` does not change the
root filter. -/
theorem filter_ne_root (l : List Row) (key k : Str) (h : rootSeg k ≠ key) :
    (l.filter (fun r => r.field ≠ k)).filter (fun r => rootSeg r.field == key) =
      l.filter (fun r => rootSeg r.field == key) := by
  induction l with
  | nil => rfl
  | cons x xs ih =>
      by_cases hf : x.field = k
      · rw [List.filter_cons_of_neg (by simp [hf]),
          List.filter_cons_of_neg (by simp [hf, beq_iff_eq, h])]
        exact ih
      · rw [List.filter_cons_of_pos (by simp [hf])]
        by_cases hr : (rootSeg x.field == key) = true
        · have e1 : (x :: xs.filter (fun r => decide (r.field ≠ k))).filter
              (fun r => rootSeg r.field == key) =
              x :: (xs.filter (fun r => decide (r.field ≠ k))).filter
                (fun r => rootSeg r.field == key) := List.filter_cons_of_pos hr
          have e2 : (x :: xs).filter (fun r => rootSeg r.field == key) =
              x :: xs.filter (fun r => rootSeg r.field == key) :=
            List.filter_cons_of_pos hr
          rw [e1, e2, ih]
        · have e1 : (x :: xs.filter (fun r => decide (r.field ≠ k))).filter
              (fun r => rootSeg r.field == key) =
              (xs.filter (fun r => decide (r.field ≠ k))).filter
                (fun r => rootSeg r.field == key) := List.filter_cons_of_neg hr
          have e2 : (x :: xs).filter (fun r => rootSeg r.field == key) =
              xs.filter (fun r => rootSeg r.field == key) :=
            List.filter_cons_of_neg hr
          rw [e1, e2, ih]

/-- One replacement step neither adds nor removes rows under a foreign root
segment. -/
theorem replaceStep_filter (ex : PyVal) (key k : Str) (acc : List Row)
    (h : rootSeg k ≠ key) :
    (replaceStep ex acc k).filter (fun r => rootSeg r.field == key) =
      acc.filter (fun r => rootSeg r.field == key) := by
  unfold replaceStep
  cases hdg : dictGet ex k
  case pylist l =>
    cases l with
    | nil => rfl
    | cons first rest =>
        cases first
        case pydict fkvs =>
          dsimp only
          rw [List.filter_append, filter_ne_root acc key k h]
          have hnil : (fkvs.map (fun p => (⟨k ++ ("[].").data ++ p.1,
              _infer_type_from_value p.2,
              ("Per-item: ").data ++ p.1⟩ : Row))).filter
              (fun r => rootSeg r.field == key) = [] := by
            apply filter_root_nil
            intro r hrm
            rcases List.mem_map.mp hrm with ⟨p, hp, hpr⟩
            rw [← hpr]
            show rootSeg (k ++ ("[].").data ++ p.1) ≠ key
            rw [rootSeg_bracket_suffix]
            exact h
          rw [hnil, List.append_nil]
        all_goals rfl
  all_goals rfl

/-- The whole replacement pass preserves the root filter for roots away from
every collected field. -/
theorem replace_fold_filter (ex : PyVal) (key : Str) :
    ∀ (L : List Str), (∀ k ∈ L, rootSeg k ≠ key) → ∀ (acc : List Row),
      (L.foldl (replaceStep ex) acc).filter (fun r => rootSeg r.field == key) =
        acc.filter (fun r => rootSeg r.field == key) := by
  intro L
  induction L with
  | nil => intro _ acc; rfl
  | cons k ks ih =>
      intro hL acc
      rw [List.foldl_cons,
        ih (fun q hq => hL q (List.mem_cons_of_mem k hq)) (replaceStep ex acc k),
        replaceStep_filter ex key k acc (hL k (List.mem_cons_self k ks))]

/-- A row whose field is not the stepped key survives a replacement step. -/
theorem replaceStep_mem (ex : PyVal) (acc : List Row) (k : Str) (r : Row)
    (hne : r.field ≠ k) (hr : r ∈ acc) : r ∈ replaceStep ex acc k := by
  unfold replaceStep
  cases hdg : dictGet ex k
  case pylist l =>
    cases l with
    | nil => exact hr
    | cons first rest =>
        cases first
        case pydict fkvs =>
          exact List.mem_append_left _
            (List.mem_filter.mpr ⟨hr, decide_eq_true hne⟩)
        all_goals exact hr
  all_goals exact hr

/-- A row whose field is away from every collected key survives the whole
replacement pass. -/
theorem replace_fold_mem (ex : PyVal) (r : Row) :
    ∀ (L : List Str), (∀ k ∈ L, r.field ≠ k) → ∀ (acc : List Row), r ∈ acc →
      r ∈ L.foldl (replaceStep ex) acc := by
  intro L
  induction L with
  | nil => intro _ acc hr; exact hr
  | cons k ks ih =>
      intro hL acc hr
      rw [List.foldl_cons]
      exact ih (fun q hq => hL q (List.mem_cons_of_mem k hq))
        (replaceStep ex acc k)
        (replaceStep_mem ex acc k r (hL k (List.mem_cons_self k ks)) hr)

/-- Rows appended for a clean example key sit under that key's root segment,
and only keys outside `seen` contribute. -/
theorem appendRowsFor_mem (seen : List Str) (kv : Str × PyVal) (r : Row)
    (hcl : cleanName kv.1 = true) (hr : r ∈ appendRowsFor seen kv) :
    rootSeg r.field = kv.1 ∧ seen.contains kv.1 = false := by
  obtain ⟨k1, v2⟩ := kv
  unfold appendRowsFor at hr
  dsimp only at hr hcl ⊢
  by_cases hc : seen.contains k1 = true
  · rw [if_pos hc] at hr
    exact absurd hr (List.not_mem_nil r)
  · have hc' : seen.contains k1 = false := by
      revert hc; cases seen.contains k1 <;> simp
    rw [if_neg hc] at hr
    refine ⟨?_, hc'⟩
    split at hr
    · cases v2 with
      | pylist l =>
          cases l with
          | nil =>
              rw [List.mem_singleton.mp hr]
              exact rootSeg_clean k1 hcl
          | cons first rest =>
              cases first <;>
                try (rw [List.mem_singleton.mp hr]; exact rootSeg_clean k1 hcl)
              rename_i fkvs
              rcases List.mem_map.mp hr with ⟨p, hp, hpr⟩
              rw [← hpr]
              show rootSeg (k1 ++ ("[].").data ++ p.1) = k1
              rw [rootSeg_bracket_suffix]
              exact rootSeg_clean k1 hcl
      | _ =>
          rw [List.mem_singleton.mp hr]
          exact rootSeg_clean k1 hcl
    · split at hr
      · cases v2 with
        | pydict vkvs =>
            rcases List.mem_map.mp hr with ⟨p, hp, hpr⟩
            rw [← hpr]
            show rootSeg (k1 ++ (".").data ++ p.1) = k1
            rw [rootSeg_dot_suffix]
            exact rootSeg_clean k1 hcl
        | _ =>
            rw [List.mem_singleton.mp hr]
            exact rootSeg_clean k1 hcl
      · rw [List.mem_singleton.mp hr]
        exact rootSeg_clean k1 hcl

/-- C3: for a truthy schema whose expanded rows are non-empty, merged with a
truthy dict example with clean top-level keys: for any clean key whose
schema-expanded rows all carry `[]` (as `items.properties` expansion
produces) and which is represented in the rows, the merge preserves, row for
row, the rows rooted at that key — so no `field[].key` row is duplicated and
the array's top-level key is not re-appended — keeps them duplicate-free,
and keeps every row not satisfying the replacement condition (only
replacement-condition rows can be replaced). -/
theorem response_merge_no_duplicates (schema_json example_json : PyVal)
    (key : Str) (rows : List Row)
    (hst : pyTruthy schema_json = true) (hsd : isDict schema_json = true)
    (hp : pyTruthy (dictGet schema_json (("properties").data)) = true)
    (hexp : _expand_schema_properties (dictGet schema_json (("properties").data))
      false [] = .ok rows)
    (hrne : rows ≠ [])
    (het : pyTruthy example_json = true) (hed : isDict example_json = true)
    (hekc : ((dictItems example_json).map Prod.fst).all cleanName = true)
    (hbr : rowsBracketOkB rows key = true)
    (hhr : rowsHasRootB rows key = true)
    (hnd : (rows.map Row.field).Nodup) :
    ∃ merged, _response_schema_from_schema_and_example schema_json example_json
        = .ok merged ∧
      merged.filter (fun r => rootSeg r.field == key) =
        rows.filter (fun r => rootSeg r.field == key) ∧
      ((merged.filter (fun r => rootSeg r.field == key)).map Row.field).Nodup ∧
      ∀ r ∈ rows, condReplace r = false → r ∈ merged := by
  have hLroot : ∀ k ∈ afwiOf rows, rootSeg k ≠ key := by
    intro k hk
    rcases afwiOf_mem rows k hk with ⟨r, hr, hf, hc⟩
    unfold condReplace at hc
    simp only [Bool.and_eq_true, Bool.not_eq_true'] at hc
    unfold rowsBracketOkB at hbr
    have hbrr := List.all_eq_true.mp hbr r hr
    dsimp only at hbrr
    rw [hc.1.2, Bool.or_false] at hbrr
    rw [← hf]
    exact of_decide_eq_true hbrr
  have hseen : key ∈ ((afwiOf rows).foldl (replaceStep example_json) rows).map
      (fun r => rootSeg r.field) := by
    unfold rowsHasRootB at hhr
    rcases List.any_eq_true.mp hhr with ⟨r0, hr0, hb0⟩
    have hr0f : r0 ∈ ((afwiOf rows).foldl (replaceStep example_json) rows).filter
        (fun r => rootSeg r.field == key) := by
      rw [replace_fold_filter example_json key (afwiOf rows) hLroot rows]
      exact List.mem_filter.mpr ⟨hr0, hb0⟩
    exact List.mem_map.mpr ⟨r0, (List.mem_filter.mp hr0f).1,
      eq_of_beq (List.mem_filter.mp hr0f).2⟩
  have hnilrest : ((dictItems example_json).flatMap
      (appendRowsFor (((afwiOf rows).foldl (replaceStep example_json) rows).map
        (fun r => rootSeg r.field)))).filter
      (fun r => rootSeg r.field == key) = [] := by
    apply filter_root_nil
    intro r hr
    rcases List.mem_flatMap.mp hr with ⟨kv, hkv, hrkv⟩
    have hclkv : cleanName kv.1 = true :=
      List.all_eq_true.mp hekc kv.1 (List.mem_map.mpr ⟨kv, hkv, rfl⟩)
    obtain ⟨hroot, hcont⟩ := appendRowsFor_mem _ kv r hclkv hrkv
    rw [hroot]
    intro hkeq
    rw [hkeq] at hcont
    have hck : (((afwiOf rows).foldl (replaceStep example_json) rows).map
        (fun r => rootSeg r.field)).contains key = true := by
      simp only [List.contains]
      exact List.elem_eq_true_of_mem hseen
    rw [hck] at hcont
    exact Bool.noConfusion hcont
  have hfe : (mergeRowsWithExample rows example_json).filter
      (fun r => rootSeg r.field == key) =
      rows.filter (fun r => rootSeg r.field == key) := by
    unfold mergeRowsWithExample appendMissing replaceArrays
    rw [List.filter_append,
      replace_fold_filter example_json key (afwiOf rows) hLroot rows,
      hnilrest, List.append_nil]
  refine ⟨mergeRowsWithExample rows example_json, ?_, hfe, ?_, ?_⟩
  · unfold _response_schema_from_schema_and_example
    have hcond : (pyTruthy schema_json && isDict schema_json &&
        pyTruthy (dictGet schema_json (("properties").data))) = true := by
      rw [hst, hsd, hp]; rfl
    rw [if_pos hcond, hexp]
    dsimp only [bind, Except.bind]
    have hie : rows.isEmpty = false := by
      cases rows with
      | nil => exact absurd rfl hrne
      | cons a as => rfl
    have hc1 : (rows.isEmpty && pyTruthy example_json && isDict example_json)
        = false := by
      rw [hie]; rfl
    rw [if_neg (by rw [hc1]; exact Bool.false_ne_true)]
    have hc2 : (pyTruthy example_json && isDict example_json) = true := by
      rw [het, hed]; rfl
    rw [if_pos hc2]
  · rw [hfe]
    exact List.Nodup.sublist (List.Sublist.map Row.field
      (List.filter_sublist rows)) hnd
  · intro r hr hcr
    have hne : ∀ k ∈ afwiOf rows, r.field ≠ k := by
      intro k hk hfk
      rcases afwiOf_mem rows k hk with ⟨r', hr', hf', hc'⟩
      have heq : r = r' :=
        nodup_map_mem_inj Row.field rows hnd r hr r' hr' (by rw [hfk, hf'])
      rw [heq, hc'] at hcr
      exact Bool.noConfusion hcr
    have hre : r ∈ (afwiOf rows).foldl (replaceStep example_json) rows :=
      replace_fold_mem example_json r (afwiOf rows) hne rows hr
    unfold mergeRowsWithExample appendMissing replaceArrays
    exact List.mem_append_left _ hre

/-- Witness for `response_merge_no_duplicates`: merging the concrete
`mergeSchema` rows with the matching `mergeExample`. -/
theorem response_merge_no_duplicates_witness :
    ∃ merged, _response_schema_from_schema_and_example mergeSchema mergeExample
        = .ok merged ∧
      merged.filter (fun r => rootSeg r.field == ("events").data) =
        mergeRows.filter (fun r => rootSeg r.field == ("events").data) ∧
      ((merged.filter (fun r => rootSeg r.field == ("events").data)).map
        Row.field).Nodup ∧
      ∀ r ∈ mergeRows, condReplace r = false → r ∈ merged :=
  response_merge_no_duplicates mergeSchema mergeExample (("events").data)
    mergeRows (by rfl) (by rfl) (by rfl) (by rfl) (by decide) (by rfl)
    (by rfl) (by rfl) (by decide) (by decide) (by decide)

/-- A normally returning `Except` value carries a payload. -/
theorem exOk_exists {α : Type} (e : Except PyErr α) (h : exOk e = true) :
    ∃ a, e = .ok a := by
  cases e with
  | ok a => exact ⟨a, rfl⟩
  | error msg => exact Bool.noConfusion h

/-- A description value passing `descOkB` strips without raising. -/
theorem descOf_ok (v : PyVal) (h : descOkB v = true) : ∃ s, descOf v = .ok s := by
  unfold descOf
  by_cases ht : pyTruthy v = true
  · rw [if_pos ht]
    unfold descOkB at h
    rw [ht] at h
    have hs : isStr v = true := h
    cases v <;> simp [isStr] at hs
    exact ⟨_, rfl⟩
  · rw [if_neg ht]
    exact ⟨[], rfl⟩

/-- Array sub-rows succeed when every sub-definition passes `subDefOkB`. -/
theorem arrayItemRows_ok (fn : Str) :
    ∀ (ips : List (Str × PyVal)), ips.all (fun q => subDefOkB q.2) = true →
      exOk (arrayItemRows fn ips) = true := by
  intro ips
  induction ips with
  | nil => intro _; rfl
  | cons q rest ih =>
      intro h
      rw [List.all_cons, Bool.and_eq_true] at h
      obtain ⟨tail, htail⟩ := exOk_exists _ (ih h.2)
      obtain ⟨q1, q2⟩ := q
      cases q2
      case pydict sdd =>
        have hdesc : descOkB (dictGet (pydict sdd) (("description").data))
            = true := h.1
        obtain ⟨sdesc, hsdesc⟩ := descOf_ok _ hdesc
        rw [arrayItemRows, htail]
        dsimp only [bind, Except.bind]
        rw [hsdesc]
        rfl
      all_goals
        rw [arrayItemRows, htail]
        rfl

/-- Object sub-rows succeed when every sub-definition passes `subDefOkB`. -/
theorem objectSubRows_ok (fn : Str) :
    ∀ (ns : List (Str × PyVal)), ns.all (fun q => subDefOkB q.2) = true →
      exOk (objectSubRows fn ns) = true := by
  intro ns
  induction ns with
  | nil => intro _; rfl
  | cons q rest ih =>
      intro h
      rw [List.all_cons, Bool.and_eq_true] at h
      obtain ⟨tail, htail⟩ := exOk_exists _ (ih h.2)
      obtain ⟨q1, q2⟩ := q
      cases q2
      case pydict sdd =>
        have hdesc : descOkB (dictGet (pydict sdd) (("description").data))
            = true := h.1
        obtain ⟨sdesc, hsdesc⟩ := descOf_ok _ hdesc
        rw [objectSubRows, htail]
        dsimp only [bind, Except.bind]
        rw [hsdesc]
        rfl
      all_goals
        rw [objectSubRows, htail]
        rfl

/-- One property expansion succeeds when the definition passes `defnOkB`. -/
theorem expandOne_ok (fr : Bool) (pref : Str) (nd : Str × PyVal)
    (h : defnOkB nd.2 = true) : exOk (expandOne fr pref nd) = true := by
  obtain ⟨n, d⟩ := nd
  cases d
  case pydict dd =>
    dsimp only at h
    unfold defnOkB at h
    dsimp only at h
    rw [Bool.and_eq_true] at h
    obtain ⟨sdesc, hsdesc⟩ := descOf_ok _ h.1
    have h2 := h.2
    unfold expandOne
    dsimp only
    rw [hsdesc]
    dsimp only [bind, Except.bind]
    split
    · rename_i hC1
      rw [if_pos hC1] at h2
      split
      · rename_i hP
        cases hip : dictGet (dictGet (pydict dd) (("items").data))
            (("properties").data)
        case pydict ips =>
          rw [hip] at h2 hP
          dsimp only at h2
          rw [hP] at h2
          have h3 : ips.all (fun q => subDefOkB q.2) = true := h2
          obtain ⟨rs, hrs⟩ := exOk_exists _ (arrayItemRows_ok _ ips h3)
          dsimp only
          rw [hrs]
          rfl
        all_goals
          rw [hip] at h2 hP
          dsimp only at h2
          rw [hP] at h2
          exact Bool.noConfusion h2
      · rfl
    · rename_i hC1n
      rw [if_neg hC1n] at h2
      split
      · rename_i hC2
        rw [if_pos hC2] at h2
        split
        · rename_i hN
          cases hnp : dictGet (pydict dd) (("properties").data)
          case pydict ns =>
            rw [hnp] at h2 hN
            dsimp only at h2
            rw [hN] at h2
            have h3 : ns.all (fun q => subDefOkB q.2) = true := h2
            obtain ⟨rs, hrs⟩ := exOk_exists _ (objectSubRows_ok _ ns h3)
            dsimp only
            rw [hrs]
            rfl
          all_goals
            rw [hnp] at h2 hN
            dsimp only at h2
            rw [hN] at h2
            exact Bool.noConfusion h2
        · rfl
      · rfl
  all_goals rfl

/-- `exceptFlatMap` succeeds when every element succeeds. -/
theorem exceptFlatMap_all_ok {α β : Type} (f : α → Except PyErr (List β)) :
    ∀ (l : List α), (∀ x ∈ l, exOk (f x) = true) →
      ∃ rs, exceptFlatMap f l = .ok rs := by
  intro l
  induction l with
  | nil => intro _; exact ⟨[], rfl⟩
  | cons x xs ih =>
      intro h
      obtain ⟨ys, hys⟩ := exOk_exists (f x) (h x (List.mem_cons_self x xs))
      obtain ⟨rest, hrest⟩ := ih (fun y hy => h y (List.mem_cons_of_mem x hy))
      refine ⟨ys ++ rest, ?_⟩
      rw [exceptFlatMap, hys]
      dsimp only [bind, Except.bind]
      rw [hrest]

/-- Schema-properties expansion succeeds under `expandOkB`. -/
theorem expand_props_ok (properties : PyVal) (fr : Bool) (pref : Str)
    (h : expandOkB properties = true) :
    ∃ rs, _expand_schema_properties properties fr pref = .ok rs := by
  cases properties
  case pydict kvs =>
    unfold expandOkB at h
    dsimp only at h
    show ∃ rs, exceptFlatMap (expandOne fr pref) kvs = .ok rs
    apply exceptFlatMap_all_ok
    intro q hq
    exact expandOne_ok fr pref q (List.all_eq_true.mp h q hq)
  all_goals exact ⟨[], rfl⟩

/-- `_json_schema_to_rows` succeeds under `jsonSchemaRowsOkB`. -/
theorem json_rows_ok (v : PyVal) (fr : Bool) (h : jsonSchemaRowsOkB v = true) :
    ∃ rs, _json_schema_to_rows v fr = .ok rs := by
  unfold _json_schema_to_rows
  by_cases h1 : (!pyTruthy v || !isDict v) = true
  · rw [if_pos h1]; exact ⟨[], rfl⟩
  · rw [if_neg h1]
    dsimp only
    by_cases h2 : (!pyTruthy (dictGet v (("properties").data))) = true
    · rw [if_pos h2]; exact ⟨[], rfl⟩
    · rw [if_neg h2]
      have hA : (!pyTruthy v) = false ∧ (!isDict v) = false := by
        revert h1; cases pyTruthy v <;> cases isDict v <;> simp
      have hB : (!pyTruthy (dictGet v (("properties").data))) = false := by
        revert h2; cases pyTruthy (dictGet v (("properties").data)) <;> simp
      unfold jsonSchemaRowsOkB at h
      rw [hA.1, hA.2, hB] at h
      simp only [Bool.false_or] at h
      exact expand_props_ok _ fr [] h

/-- The request-schema step succeeds under `reqSchemaOkB`. -/
theorem requestSchemaStep_ok (content : Str) (h : reqSchemaOkB content = true) :
    ∃ r, requestSchemaStep content = .ok r := by
  unfold requestSchemaStep
  unfold reqSchemaOkB at h
  cases hb : reqSchemaBlock content with
  | none => exact ⟨none, rfl⟩
  | some cap =>
      rw [hb] at h
      dsimp only at h ⊢
      cases hl : pyLoads (pyStrip cap) with
      | none => exact ⟨none, rfl⟩
      | some v =>
          rw [hl] at h
          dsimp only at h
          obtain ⟨rows, hrows⟩ := json_rows_ok v true h
          refine ⟨some rows, ?_⟩
          dsimp only
          rw [hrows]
          rfl

/-- The response-section step succeeds under `respSchemaParseOkB`. -/
theorem responseJsonStep_ok (content : Str)
    (h : respSchemaParseOkB content = true) :
    exOk (responseJsonStep content) = true := by
  unfold responseJsonStep
  unfold respSchemaParseOkB at h
  cases hb : respSchemaBlock content with
  | none =>
      dsimp only [bind, Except.bind]
      repeat'
        first
          | rfl
          | split
          | dsimp only [bind, Except.bind]
  | some cap =>
      rw [hb] at h
      dsimp only at h ⊢
      cases hl : pyLoads (pyStrip cap) with
      | none =>
          dsimp only [bind, Except.bind]
          repeat'
            first
              | rfl
              | split
              | dsimp only [bind, Except.bind]
      | some v =>
          rw [hl] at h
          dsimp only at h ⊢
          rw [if_neg (by rw [h]; exact Bool.noConfusion)]
          repeat'
            first
              | rfl
              | split
              | dsimp only [bind, Except.bind]

/-- The schema/example merge succeeds under `mergeSafeB`. -/
theorem response_schema_merge_ok (sj exj : PyVal) (h : mergeSafeB sj = true) :
    exOk (_response_schema_from_schema_and_example sj exj) = true := by
  unfold _response_schema_from_schema_and_example
  by_cases hC : (pyTruthy sj && isDict sj &&
      pyTruthy (dictGet sj (("properties").data))) = true
  · rw [if_pos hC]
    have hexp : expandOkB (dictGet sj (("properties").data)) = true := by
      unfold mergeSafeB at h
      rw [hC] at h
      exact h
    obtain ⟨rows, hrows⟩ := expand_props_ok _ false [] hexp
    rw [hrows]
    dsimp only [bind, Except.bind]
    repeat'
      first
        | rfl
        | split
        | dsimp only [bind, Except.bind]
  · rw [if_neg hC]
    dsimp only [bind, Except.bind]
    repeat'
      first
        | rfl
        | split
        | dsimp only [bind, Except.bind]

/-- One error-status iteration succeeds under `errBlockOkB`. -/
theorem errStatusStep_ok (content : Str) (status : String)
    (codes : List ErrEntry) (h : errBlockOkB content status = true) :
    exOk (errStatusStep content status codes) = true := by
  unfold errStatusStep
  unfold errBlockOkB at h
  cases hb : errBlock status content with
  | none => rfl
  | some cap =>
      rw [hb] at h
      dsimp only at h ⊢
      cases hl : pyLoads (pyStrip cap) with
      | none => rfl
      | some obj =>
          rw [hl] at h
          dsimp only at h ⊢
          rw [if_neg (by rw [h]; exact Bool.noConfusion)]
          repeat'
            first
              | rfl
              | split
              | dsimp only [bind, Except.bind]

/-- `_parse_error_codes` succeeds under `errBlocksOkB`. -/
theorem parse_error_codes_ok (content : Str) (h : errBlocksOkB content = true) :
    ∃ errs, _parse_error_codes content = .ok errs := by
  unfold errBlocksOkB at h
  rw [Bool.and_eq_true] at h
  obtain ⟨h45, h5⟩ := h
  rw [Bool.and_eq_true] at h45
  obtain ⟨h4, h13⟩ := h45
  unfold _parse_error_codes
  dsimp only
  obtain ⟨c1, hc1⟩ := exOk_exists _ (errStatusStep_ok content "400"
    ((inlineCodesOf content).map
      (fun code => (⟨code, ("4xx/5xx").data, lookupDesc code⟩ : ErrEntry))) h4)
  rw [hc1]
  dsimp only [bind, Except.bind]
  obtain ⟨c2, hc2⟩ := exOk_exists _ (errStatusStep_ok content "413" c1 h13)
  rw [hc2]
  dsimp only [bind, Except.bind]
  exact exOk_exists _ (errStatusStep_ok content "500" c2 h5)

/-- C1 counterexample: `parse_rapid_md` raises (`AttributeError`) on a
document whose `Response 400` block parses to a JSON array, and on a document
whose response schema contains an object definition with a truthy non-mapping
nested `properties` value — the spec says it never raises and skips
non-mapping definitions silently. -/
theorem parse_raises_counterexample :
    exOk (parse_rapid_md errCrashDoc) = false ∧
    exOk (parse_rapid_md schemaCrashDoc) = false := by
  constructor
  · rfl
  · rfl

/-- C1 amended: `parse_rapid_md` returns a result record whenever (i) the
request-schema block, if present and parsable, expands safely, (ii) the
`Response 200 — JSON Schema` block, if present and parsable, parses to an
object, (iii) the schema reaching the response merge expands safely, and
(iv) each `Response 400/413/500` block, if present and parsable, parses to
an object; missing or unparsable sections only leave fields absent. -/
theorem parse_rapid_md_ok_conditional (content : Str)
    (h1 : reqSchemaOkB content = true)
    (h2 : respSchemaParseOkB content = true)
    (h3 : respMergeOkB content = true)
    (h4 : errBlocksOkB content = true) :
    exOk (parse_rapid_md content) = true := by
  obtain ⟨req, hreq⟩ := requestSchemaStep_ok content h1
  obtain ⟨se, hse⟩ := exOk_exists _ (responseJsonStep_ok content h2)
  have hms : mergeSafeB se.1 = true := by
    unfold respMergeOkB at h3
    rw [hse] at h3
    exact h3
  obtain ⟨resp, hresp⟩ := exOk_exists _ (response_schema_merge_ok se.1 se.2 hms)
  obtain ⟨errs, herrs⟩ := parse_error_codes_ok content h4
  rw [parse_ok_intro content req se resp errs hreq hse hresp herrs]
  rfl

/-- Witness for `parse_rapid_md_ok_conditional` at a concrete well-formed
document. -/
theorem parse_rapid_md_ok_conditional_witness :
    exOk (parse_rapid_md healthyDoc) = true :=
  parse_rapid_md_ok_conditional healthyDoc (by rfl) (by rfl) (by rfl) (by rfl)
